import Mathlib

/-!
Verification of the Smart Notes backend (backend/app.py).

Strings are modeled as lists of Unicode characters (`PyStr`); `S` turns a
Lean string literal into this representation.  External dependencies (the
NLTK sentence and word tokenizers, the Hugging Face and Gemini HTTP
endpoints, and the wall clock) are modeled as oracle parameters; every
Python regular-expression substitution is translated into an explicit
left-to-right scanner faithful to `re.sub` semantics on the concrete
pattern it implements.
-/

/-- Strings are modeled as lists of characters (Python `str` as a sequence
of code points). -/
abbrev PyStr := List Char

/-- Conversion from a Lean string literal to the character-list model. -/
def S (s : String) : PyStr := s.data

/-- Model of the Python regex class `\s` and of the default `str.strip`
character set, restricted to the ASCII whitespace actually occurring in the
processed texts. -/
def isWS (c : Char) : Bool :=
  c = ' ' || c = '\t' || c = '\n' || c = '\r'

/-- Model of the Python regex class `\w` (ASCII): letters, digits and
underscore. -/
def isWordChar (c : Char) : Bool :=
  c.isAlpha || c.isDigit || c = '_'

/-- ASCII lower-casing of one character, modeling `str.lower` on the ASCII
texts compared by the source. -/
def lowerChar (c : Char) : Char := c.toLower

/-- Model of Python `str.lower`. -/
def pyLower (s : PyStr) : PyStr := s.map lowerChar

/-- Leading-whitespace removal (left half of Python `str.strip`). -/
def trimLeft (s : PyStr) : PyStr := s.dropWhile (fun c => isWS c)

/-- Trailing-whitespace removal (right half of Python `str.strip`). -/
def trimRight : PyStr → PyStr
  | [] => []
  | c :: cs =>
    let r := trimRight cs
    if isWS c && r.isEmpty then [] else c :: r

/-- Model of Python `str.strip()`. -/
def pystrip (s : PyStr) : PyStr := trimRight (trimLeft s)

/-- Case-insensitive prefix test (used by the `re.IGNORECASE` scanners). -/
def ciIsPrefixOf : PyStr → PyStr → Bool
  | [], _ => true
  | _ :: _, [] => false
  | p :: ps, c :: cs => (lowerChar p = lowerChar c) && ciIsPrefixOf ps cs

/-- Case-sensitive substring occurrence test (Python `in` on strings). -/
def occursIn (pat : PyStr) : PyStr → Bool
  | [] => pat.isPrefixOf []
  | c :: cs => pat.isPrefixOf (c :: cs) || occursIn pat cs

/-- Case-insensitive substring occurrence test (`pat in text.lower()` with a
lower-case pattern). -/
def ciOccursIn (pat : PyStr) : PyStr → Bool
  | [] => ciIsPrefixOf pat []
  | c :: cs => ciIsPrefixOf pat (c :: cs) || ciOccursIn pat cs

/-- The words of a string: maximal runs of non-whitespace characters.
`wordsAux s acc` carries the (reversed) pending word `acc`. -/
def wordsAux : PyStr → PyStr → List PyStr
  | [], acc => if acc.isEmpty then [] else [acc.reverse]
  | c :: cs, acc =>
    if isWS c then
      if acc.isEmpty then wordsAux cs [] else acc.reverse :: wordsAux cs []
    else wordsAux cs (c :: acc)

/-- Model of Python `str.split()` with no argument: whitespace-separated
words, empty pieces dropped. -/
def wordsOf (s : PyStr) : List PyStr := wordsAux s []

/-- All words of a list of strings, in order. -/
def flatWords (l : List PyStr) : List PyStr := (l.map wordsOf).flatten

/-- Model of Python `' '.join(l)`: the pieces separated by single
spaces. -/
def joinSp : List PyStr → PyStr
  | [] => []
  | [x] => x
  | x :: y :: l => x ++ ' ' :: joinSp (y :: l)

/-- Model of Python `'\n'.join(l)`: the pieces separated by single
newlines. -/
def joinNL : List PyStr → PyStr
  | [] => []
  | [x] => x
  | x :: y :: l => x ++ '\n' :: joinNL (y :: l)

/-- Model of Python `str.split('\n')`: split at every newline, keeping
empty pieces. -/
def splitNL : PyStr → List PyStr
  | [] => [[]]
  | c :: cs =>
    if c = '\n' then [] :: splitNL cs
    else
      match splitNL cs with
      | [] => [[c]]
      | p :: ps => (c :: p) :: ps

/-- Fuel-driven worker for `splitSub`; the fuel bounds the number of scan
steps and is instantiated with the length of the scanned string, which
always suffices for a non-empty separator. -/
def splitSubFuel (sep : PyStr) : Nat → PyStr → List PyStr
  | 0, s => [s]
  | fuel + 1, s =>
    match s with
    | [] => [[]]
    | c :: cs =>
      if sep.isPrefixOf (c :: cs) then
        [] :: splitSubFuel sep fuel ((c :: cs).drop sep.length)
      else
        match splitSubFuel sep fuel cs with
        | [] => [[c]]
        | p :: ps => (c :: p) :: ps

/-- Model of Python `str.split(sep)` for a fixed non-empty separator:
non-overlapping left-to-right cuts, empty pieces kept. -/
def splitSub (sep : PyStr) (s : PyStr) : List PyStr :=
  splitSubFuel sep s.length s

/-- Python `text.split('. ')`, the fallback used by `chunk_text` when the
NLTK sentence tokenizer raises (backend/app.py line 350). -/
def splitDotSpace (s : PyStr) : List PyStr :=
  splitSub (S ". ") s

/-- The match information returned by a pattern matcher at one scan
position: the replacement text, the last character of the matched span (for
later word-boundary tests) and the remainder of the string after the
match. -/
abbrev MatchStep := PyStr × Option Char × PyStr

/-- Fuel-driven worker for `rsub`.  At each position the matcher `m`
receives the previous character and the remaining text; on a match the
scanner emits the replacement and resumes after the matched span, otherwise
it emits one character and advances, exactly as `re.sub` replaces
non-overlapping matches left to right.  Every matcher used below consumes
at least one character, so fuel equal to the string length suffices. -/
def rsubFuel (m : Option Char → PyStr → Option MatchStep) :
    Nat → Option Char → PyStr → PyStr
  | 0, _, s => s
  | fuel + 1, prev, s =>
    match s with
    | [] => []
    | c :: cs =>
      match m prev (c :: cs) with
      | some (rep, lastc, rest) => rep ++ rsubFuel m fuel lastc rest
      | none => c :: rsubFuel m fuel (some c) cs

/-- A generic model of `re.sub(pattern, repl, s)`, specialized below to each
concrete pattern of the source. -/
def rsub (m : Option Char → PyStr → Option MatchStep) (s : PyStr) : PyStr :=
  rsubFuel m s.length none s

theorem rsubFuel_cons_none (m) (fuel : Nat) (prev : Option Char) (c : Char)
    (cs : PyStr) (h : m prev (c :: cs) = none) :
    rsubFuel m (fuel + 1) prev (c :: cs) = c :: rsubFuel m fuel (some c) cs := by
  simp [rsubFuel, h]

/-! ## Text Normalizer (`preprocess_text`, backend/app.py lines 306-342) -/

/-- Model of `re.sub(r'\s+', ' ', text)`: every maximal whitespace run is
replaced by a single space.  The two-character lookahead drops all but the
last character of a run and emits one space for it, producing the same
string as the position-wise regex replacement. -/
def collapseWhitespace : PyStr → PyStr
  | [] => []
  | [c] => if isWS c then [' '] else [c]
  | c :: d :: cs =>
    if isWS c && isWS d then collapseWhitespace (d :: cs)
    else (if isWS c then ' ' else c) :: collapseWhitespace (d :: cs)

/-- The characters admitted after `://` by the URL regex of
`preprocess_text`: `[a-zA-Z]`, `[0-9]`, the character range `[$-_@.&+]`
(code points 0x24 to 0x5F) and `[!*\\(\\),]`. -/
def urlChar (c : Char) : Bool :=
  c.isAlpha || c.isDigit || (0x24 ≤ c.toNat && c.toNat ≤ 0x5F) ||
    c = '!' || c = '*' || c = '\\' || c = '(' || c = ')' || c = ','

/-- Matcher for `re.sub(r'http[s]?://(...)+', '', text)`: a literal
`http://` or `https://` followed by at least one admitted character, taken
greedily. -/
def urlMatcher (_ : Option Char) (s : PyStr) : Option MatchStep :=
  if (S "https://").isPrefixOf s then
    let run := ((s.drop 8).takeWhile urlChar).length
    if run = 0 then none
    else some ([], (s.take (8 + run)).getLast?, s.drop (8 + run))
  else if (S "http://").isPrefixOf s then
    let run := ((s.drop 7).takeWhile urlChar).length
    if run = 0 then none
    else some ([], (s.take (7 + run)).getLast?, s.drop (7 + run))
  else none

/-- Matcher for `re.sub(r'\S*@\S*\s?', '', text)`: a match at a position
exists exactly when the maximal non-whitespace token starting there
contains `@`; the greedy match then covers the whole token plus one
optional following whitespace character. -/
def emailMatcher (_ : Option Char) (s : PyStr) : Option MatchStep :=
  let tok := s.takeWhile (fun c => !isWS c)
  if tok.contains '@' then
    let len :=
      if ((s.drop tok.length).head?.elim false (fun c => isWS c)) then
        tok.length + 1
      else tok.length
    some ([], (s.take len).getLast?, s.drop len)
  else none

/-- Matcher for `re.sub(r'[p]{2,}', 'p', text)`: a run of two or more
copies of `p` collapses to a single `p`. -/
def punctMatcher (p : Char) (_ : Option Char) (s : PyStr) : Option MatchStep :=
  match s with
  | a :: b :: _ =>
    if a = p && b = p then
      let run := (s.takeWhile (fun c => c = p)).length
      some ([p], some p, s.drop run)
    else none
  | _ => none

/-- Matcher for `re.sub(pat, '', text, flags=re.IGNORECASE)` with a literal
pattern: a case-insensitive occurrence of `pat` is removed. -/
def ciMatcher (pat : PyStr) (_ : Option Char) (s : PyStr) : Option MatchStep :=
  match pat with
  | [] => none
  | p :: ps =>
    if ciIsPrefixOf (p :: ps) s then
      some ([], (s.take (p :: ps).length).getLast?, s.drop (p :: ps).length)
    else none

/-- URL removal step of `preprocess_text` (line 312). -/
def reSubURLs (s : PyStr) : PyStr := rsub urlMatcher s

/-- Email removal step of `preprocess_text` (line 315). -/
def reSubEmails (s : PyStr) : PyStr := rsub emailMatcher s

/-- One punctuation-collapsing step of `preprocess_text` (lines 318-320). -/
def collapsePunct (p : Char) (s : PyStr) : PyStr := rsub (punctMatcher p) s

/-- One boilerplate-phrase removal step of `preprocess_text` (line 340). -/
def removePhraseCI (pat : PyStr) (s : PyStr) : PyStr := rsub (ciMatcher pat) s

/-- The fixed boilerplate phrase list of `preprocess_text` (lines 323-337),
in source order. -/
def navigation_patterns : List PyStr :=
  [S "skip to content", S "click here", S "read more", S "learn more",
   S "sign up", S "log in", S "subscribe", S "follow us", S "share this",
   S "tweet this", S "privacy policy", S "terms of service",
   S "cookie policy"]

/-- `preprocess_text` (backend/app.py lines 306-342): collapse whitespace
and strip, remove URLs, remove email addresses, collapse repeated `.`, `!`
and `?`, remove the boilerplate phrases case-insensitively, and strip. -/
def preprocess_text (text : PyStr) : PyStr :=
  let t1 := pystrip (collapseWhitespace text)
  let t2 := reSubURLs t1
  let t3 := reSubEmails t2
  let t4 := collapsePunct '?' (collapsePunct '!' (collapsePunct '.' t3))
  let t5 := navigation_patterns.foldl (fun acc p => removePhraseCI p acc) t4
  pystrip t5

/-! ## Lemmas about whitespace collapsing and stripping -/

/-- A string is whitespace-collapsed when every whitespace character in it
is a plain space and no two whitespace characters are adjacent. -/
def collapsedWS : PyStr → Bool
  | [] => true
  | c :: cs =>
    (!isWS c || c = ' ') &&
    (match cs with | [] => true | d :: _ => !(isWS c && isWS d)) &&
    collapsedWS cs

theorem collapsedWS_tail {c : Char} {cs : PyStr}
    (h : collapsedWS (c :: cs) = true) : collapsedWS cs = true := by
  simp only [collapsedWS, Bool.and_eq_true] at h
  exact h.2

theorem collapseWhitespace_cons_not_ws (d : Char) (cs : PyStr)
    (h : isWS d = false) :
    ∃ r, collapseWhitespace (d :: cs) = d :: r := by
  cases cs with
  | nil => exact ⟨[], by simp [collapseWhitespace, h]⟩
  | cons e cs2 => exact ⟨collapseWhitespace (e :: cs2),
      by simp [collapseWhitespace, h]⟩

theorem collapsedWS_collapseWhitespace (s : PyStr) :
    collapsedWS (collapseWhitespace s) = true := by
  induction s using collapseWhitespace.induct with
  | case1 => simp [collapseWhitespace, collapsedWS]
  | case2 c h =>
    simp only [collapseWhitespace]
    rw [if_pos h]
    decide
  | case3 c h =>
    simp only [collapseWhitespace]
    rw [if_neg h]
    simp only [Bool.not_eq_true] at h
    simp [collapsedWS, h]
  | case4 c d cs hcd ih =>
    simp only [collapseWhitespace, hcd, if_true]
    exact ih
  | case5 c d cs hcd ih =>
    simp only [collapseWhitespace]
    rw [if_neg hcd]
    by_cases hd : isWS d = true
    · -- then c is not whitespace, so the emitted character is c itself
      have hc : isWS c = false := by
        by_contra hcc
        simp only [Bool.not_eq_false] at hcc
        exact hcd (by simp [hcc, hd])
      rw [if_neg (by simp [hc])]
      simp only [collapsedWS, Bool.and_eq_true]
      refine ⟨⟨by simp [hc], ?_⟩, ih⟩
      cases hR : collapseWhitespace (d :: cs) with
      | nil => simp
      | cons b r => simp [hc]
    · -- d is not whitespace: the next output character is d
      obtain ⟨r, hr⟩ := collapseWhitespace_cons_not_ws d cs (by simpa using hd)
      by_cases hc : isWS c = true
      · rw [if_pos hc]
        simp only [collapsedWS, Bool.and_eq_true]
        refine ⟨⟨by simp, ?_⟩, ih⟩
        rw [hr]
        simp [hd]
      · rw [if_neg hc]
        simp only [collapsedWS, Bool.and_eq_true]
        refine ⟨⟨by simp [hc], ?_⟩, ih⟩
        rw [hr]
        simp [hc]

theorem collapseWhitespace_of_collapsedWS (s : PyStr)
    (h : collapsedWS s = true) : collapseWhitespace s = s := by
  induction s using collapseWhitespace.induct with
  | case1 => rfl
  | case2 c hc =>
    simp only [collapsedWS, Bool.and_eq_true] at h
    have : c = ' ' := by
      have h1 := h.1.1
      simp [hc] at h1
      exact h1
    simp [collapseWhitespace, hc, this]
  | case3 c hc =>
    simp only [collapseWhitespace]
    rw [if_neg hc]
  | case4 c d cs hcd ih =>
    exfalso
    simp only [collapsedWS, Bool.and_eq_true] at h
    have h2 := h.1.2
    simp only [Bool.and_eq_true] at hcd
    simp [hcd.1, hcd.2] at h2
  | case5 c d cs hcd ih =>
    simp only [collapseWhitespace]
    rw [if_neg hcd]
    have htail : collapsedWS (d :: cs) = true := collapsedWS_tail h
    rw [ih htail]
    by_cases hc : isWS c = true
    · have : c = ' ' := by
        simp only [collapsedWS, Bool.and_eq_true] at h
        have h1 := h.1.1
        simp [hc] at h1
        exact h1
      simp [hc, this]
    · simp [hc]

theorem trimRight_cases (c : Char) (cs : PyStr) :
    trimRight (c :: cs) = [] ∨ trimRight (c :: cs) = c :: trimRight cs := by
  simp only [trimRight]
  by_cases h : (isWS c && (trimRight cs).isEmpty) = true
  · left; rw [if_pos h]
  · right; rw [if_neg h]

theorem trimLeft_head_not_ws (c : Char) (cs : PyStr) (h : isWS c = false) :
    trimLeft (c :: cs) = c :: cs := by
  simp [trimLeft, List.dropWhile_cons, h]

theorem collapsedWS_trimLeft (s : PyStr) (h : collapsedWS s = true) :
    collapsedWS (trimLeft s) = true := by
  induction s with
  | nil => simpa [trimLeft] using h
  | cons c cs ih =>
    by_cases hc : isWS c = true
    · have : trimLeft (c :: cs) = trimLeft cs := by
        simp [trimLeft, List.dropWhile_cons, hc]
      rw [this]
      exact ih (collapsedWS_tail h)
    · rw [trimLeft_head_not_ws c cs (by simpa using hc)]
      exact h

theorem collapsedWS_trimRight (s : PyStr) (h : collapsedWS s = true) :
    collapsedWS (trimRight s) = true := by
  induction s with
  | nil => simpa [trimRight] using h
  | cons c cs ih =>
    rcases trimRight_cases c cs with h1 | h1
    · rw [h1]; rfl
    · rw [h1]
      have htl : collapsedWS (trimRight cs) = true := ih (collapsedWS_tail h)
      simp only [collapsedWS, Bool.and_eq_true] at h ⊢
      refine ⟨⟨h.1.1, ?_⟩, htl⟩
      cases htc : trimRight cs with
      | nil => trivial
      | cons b r =>
        -- the head of a non-empty trimRight is the head of the input
        cases cs with
        | nil => simp [trimRight] at htc
        | cons x xs =>
          rcases trimRight_cases x xs with h2 | h2
          · rw [h2] at htc; exact absurd htc (by simp)
          · rw [h2] at htc
            have hbx : b = x := by
              have := htc
              injection this with h3 _
              exact h3.symm
            subst hbx
            exact h.1.2

theorem trimLeft_idem (s : PyStr) : trimLeft (trimLeft s) = trimLeft s := by
  induction s with
  | nil => rfl
  | cons c cs ih =>
    by_cases hc : isWS c = true
    · simp [trimLeft, List.dropWhile_cons, hc] at ih ⊢
      simpa [trimLeft] using ih
    · rw [trimLeft_head_not_ws c cs (by simpa using hc)]
      rw [trimLeft_head_not_ws c cs (by simpa using hc)]

theorem trimRight_idem (s : PyStr) : trimRight (trimRight s) = trimRight s := by
  induction s with
  | nil => rfl
  | cons c cs ih =>
    rcases trimRight_cases c cs with h1 | h1
    · rw [h1]; rfl
    · rw [h1]
      simp only [trimRight, ih]
      have : (isWS c && (trimRight cs).isEmpty) = false := by
        by_contra hcc
        simp only [Bool.not_eq_false] at hcc
        simp only [trimRight] at h1
        rw [if_pos hcc] at h1
        exact absurd h1 (by simp)
      rw [this]
      simp

theorem trimLeft_trimRight_trimLeft (s : PyStr) :
    trimLeft (trimRight (trimLeft s)) = trimRight (trimLeft s) := by
  induction s with
  | nil => rfl
  | cons c cs ih =>
    by_cases hc : isWS c = true
    · have : trimLeft (c :: cs) = trimLeft cs := by
        simp [trimLeft, List.dropWhile_cons, hc]
      rw [this]; exact ih
    · rw [trimLeft_head_not_ws c cs (by simpa using hc)]
      rcases trimRight_cases c cs with h1 | h1
      · rw [h1]; rfl
      · rw [h1]
        exact trimLeft_head_not_ws c _ (by simpa using hc)

theorem pystrip_idem (s : PyStr) : pystrip (pystrip s) = pystrip s := by
  unfold pystrip
  rw [trimLeft_trimRight_trimLeft, trimRight_idem]

theorem collapsedWS_pystrip (s : PyStr) (h : collapsedWS s = true) :
    collapsedWS (pystrip s) = true :=
  collapsedWS_trimRight _ (collapsedWS_trimLeft _ h)

/-- The first normalization step of `preprocess_text` is a projection:
applying whitespace collapse plus strip to its own output changes
nothing. -/
theorem pystrip_collapseWhitespace_idem (x : PyStr) :
    pystrip (collapseWhitespace (pystrip (collapseWhitespace x))) =
      pystrip (collapseWhitespace x) := by
  rw [collapseWhitespace_of_collapsedWS _
    (collapsedWS_pystrip _ (collapsedWS_collapseWhitespace x))]
  exact pystrip_idem _

/-! ## Claim C5: normalizer idempotence -/

/-- C5, counterexample: `preprocess_text` is not idempotent.  On the input
`"x subscribe y"` the boilerplate-phrase removal leaves the two spaces that
surrounded the removed phrase, so one application yields `"x  y"` while a
second application collapses it further to `"x y"`. -/
theorem preprocess_text_not_idempotent :
    ¬ (preprocess_text (preprocess_text (S "x subscribe y")) =
        preprocess_text (S "x subscribe y")) := by decide

/-- C5 as amended: `preprocess_text` is idempotent on every input on which
the removal stages (URL removal, email removal, punctuation collapsing and
boilerplate-phrase removal) do not change the whitespace-collapsed, stripped
text.  In general a removal stage can create a new double space, which only
the next application collapses, so idempotence fails (see
`preprocess_text_not_idempotent`). -/
theorem preprocess_text_of_stages_fixed (y : PyStr)
    (hurl : reSubURLs (pystrip (collapseWhitespace y)) =
      pystrip (collapseWhitespace y))
    (hmail : reSubEmails (pystrip (collapseWhitespace y)) =
      pystrip (collapseWhitespace y))
    (hpunct : collapsePunct '?' (collapsePunct '!' (collapsePunct '.'
      (pystrip (collapseWhitespace y)))) = pystrip (collapseWhitespace y))
    (hnav : navigation_patterns.foldl (fun acc p => removePhraseCI p acc)
      (pystrip (collapseWhitespace y)) = pystrip (collapseWhitespace y)) :
    preprocess_text y = pystrip (collapseWhitespace y) := by
  simp only [preprocess_text]
  rw [hurl, hmail, hpunct, hnav]
  exact pystrip_idem _

theorem preprocess_text_idempotent_of_stages_fixed (x : PyStr)
    (hurl : reSubURLs (pystrip (collapseWhitespace x)) =
      pystrip (collapseWhitespace x))
    (hmail : reSubEmails (pystrip (collapseWhitespace x)) =
      pystrip (collapseWhitespace x))
    (hpunct : collapsePunct '?' (collapsePunct '!' (collapsePunct '.'
      (pystrip (collapseWhitespace x)))) = pystrip (collapseWhitespace x))
    (hnav : navigation_patterns.foldl (fun acc p => removePhraseCI p acc)
      (pystrip (collapseWhitespace x)) = pystrip (collapseWhitespace x)) :
    preprocess_text (preprocess_text x) = preprocess_text x := by
  have h1 := preprocess_text_of_stages_fixed x hurl hmail hpunct hnav
  have e := pystrip_collapseWhitespace_idem x
  have h2 := preprocess_text_of_stages_fixed (pystrip (collapseWhitespace x))
    (by rw [e, hurl]) (by rw [e, hmail]) (by rw [e, hpunct]) (by rw [e, hnav])
  rw [h1, h2, e]

/-- Witness for `preprocess_text_idempotent_of_stages_fixed` at the concrete
input `"hello world"`, on which every removal stage is the identity. -/
theorem preprocess_text_idempotent_witness :
    preprocess_text (preprocess_text (S "hello world")) =
      preprocess_text (S "hello world") :=
  preprocess_text_idempotent_of_stages_fixed (S "hello world")
    (by decide) (by decide) (by decide) (by decide)

/-! ## Sentence Chunker (`chunk_text`, backend/app.py lines 344-372)

The sentence list is the output of the external sentence tokenizer (or of
the `'. '`-split fallback) and the per-sentence word count models
`len(word_tokenize(sentence))`; both are kept abstract, so the loop is
stated over a list of sentences paired with their word counts. -/

/-- The accumulation loop of `chunk_text`: greedily extend the current
chunk (`current_chunk`, which always carries a trailing space per appended
sentence) while the accumulated word count stays within `max_words`;
otherwise emit the stripped current chunk, if non-empty, and restart from
the pending sentence.  The final chunk is emitted if non-empty. -/
def chunkLoop (maxWords : Nat) : List (PyStr × Nat) → PyStr → Nat → List PyStr
  | [], cur, _ => if pystrip cur = [] then [] else [pystrip cur]
  | (s, sw) :: rest, cur, cnt =>
    if cnt + sw ≤ maxWords then
      chunkLoop maxWords rest (cur ++ s ++ S " ") (cnt + sw)
    else if pystrip cur = [] then
      chunkLoop maxWords rest (s ++ S " ") sw
    else
      pystrip cur :: chunkLoop maxWords rest (s ++ S " ") sw

/-- `chunk_text` on the sentence list produced by the (external) sentence
tokenizer, with `wc` modeling the external word tokenizer count. -/
def chunk_text_sentences (wc : PyStr → Nat) (maxWords : Nat)
    (sentences : List PyStr) : List PyStr :=
  chunkLoop maxWords (sentences.map (fun s => (s, wc s))) [] 0

/-- Concrete word counter used to instantiate the abstract tokenizer in
witnesses: the number of whitespace-separated words. -/
def wordCountModel (s : PyStr) : Nat := (wordsOf s).length

/-- The string value of `current_chunk` corresponding to a list of
accumulated sentences: each sentence followed by one space. -/
def joinChunk (l : List (PyStr × Nat)) : PyStr :=
  (l.map (fun p => p.1 ++ S " ")).flatten

/-- Ghost version of `chunkLoop` that keeps each chunk as the list of
sentences it accumulated, for stating per-chunk properties. -/
def chunkPartsLoop (maxWords : Nat) :
    List (PyStr × Nat) → List (PyStr × Nat) → Nat → List (List (PyStr × Nat))
  | [], cur, _ => if pystrip (joinChunk cur) = [] then [] else [cur]
  | (s, sw) :: rest, cur, cnt =>
    if cnt + sw ≤ maxWords then
      chunkPartsLoop maxWords rest (cur ++ [(s, sw)]) (cnt + sw)
    else if pystrip (joinChunk cur) = [] then
      chunkPartsLoop maxWords rest [(s, sw)] sw
    else
      cur :: chunkPartsLoop maxWords rest [(s, sw)] sw

/-- The sentence partition underlying `chunk_text_sentences`. -/
def chunkPartition (wc : PyStr → Nat) (maxWords : Nat)
    (sentences : List PyStr) : List (List (PyStr × Nat)) :=
  chunkPartsLoop maxWords (sentences.map (fun s => (s, wc s))) [] 0

theorem joinChunk_append_single (cur : List (PyStr × Nat)) (s : PyStr)
    (sw : Nat) : joinChunk (cur ++ [(s, sw)]) = joinChunk cur ++ (s ++ S " ") := by
  simp [joinChunk]

theorem joinChunk_single (s : PyStr) (sw : Nat) :
    joinChunk [(s, sw)] = s ++ S " " := by
  simp [joinChunk]

/-- `chunkLoop` produces exactly the stripped joined texts of the parts
produced by `chunkPartsLoop`. -/
theorem chunkLoop_eq_parts (maxWords : Nat) (rest : List (PyStr × Nat)) :
    ∀ cur cnt, chunkLoop maxWords rest (joinChunk cur) cnt =
      (chunkPartsLoop maxWords rest cur cnt).map (fun p => pystrip (joinChunk p)) := by
  induction rest with
  | nil =>
    intro cur cnt
    simp only [chunkLoop, chunkPartsLoop]
    by_cases h : pystrip (joinChunk cur) = []
    · rw [if_pos h, if_pos h]; rfl
    · rw [if_neg h, if_neg h]; rfl
  | cons p rest ih =>
    intro cur cnt
    obtain ⟨s, sw⟩ := p
    simp only [chunkLoop, chunkPartsLoop]
    by_cases h1 : cnt + sw ≤ maxWords
    · rw [if_pos h1, if_pos h1]
      have : joinChunk cur ++ s ++ S " " = joinChunk (cur ++ [(s, sw)]) := by
        rw [joinChunk_append_single, List.append_assoc]
      rw [this, ih]
    · rw [if_neg h1, if_neg h1]
      by_cases h2 : pystrip (joinChunk cur) = []
      · rw [if_pos h2, if_pos h2]
        have : s ++ S " " = joinChunk [(s, sw)] := (joinChunk_single s sw).symm
        rw [this, ih]
      · rw [if_neg h2, if_neg h2]
        have : s ++ S " " = joinChunk [(s, sw)] := (joinChunk_single s sw).symm
        rw [this, ih, List.map_cons]

/-- Sum of the word counts of an accumulated chunk. -/
def sumWc (l : List (PyStr × Nat)) : Nat := (l.map Prod.snd).sum

/-- Size invariant of the chunking loop: every emitted part either fits in
the word budget or is a single sentence whose own count exceeds it. -/
theorem chunkPartsLoop_bound (maxWords : Nat) (rest : List (PyStr × Nat)) :
    ∀ cur cnt, cnt = sumWc cur →
      (cnt ≤ maxWords ∨ ∃ s sw, cur = [(s, sw)] ∧ maxWords < sw) →
      ∀ p ∈ chunkPartsLoop maxWords rest cur cnt,
        sumWc p ≤ maxWords ∨ ∃ s sw, p = [(s, sw)] ∧ maxWords < sw := by
  induction rest with
  | nil =>
    intro cur cnt hcnt hinv p hp
    simp only [chunkPartsLoop] at hp
    by_cases h : pystrip (joinChunk cur) = []
    · rw [if_pos h] at hp; simp at hp
    · rw [if_neg h] at hp
      simp only [List.mem_singleton] at hp
      subst hp
      rcases hinv with h1 | h1
      · left; omega
      · right; exact h1
  | cons q rest ih =>
    intro cur cnt hcnt hinv p hp
    obtain ⟨s, sw⟩ := q
    simp only [chunkPartsLoop] at hp
    by_cases h1 : cnt + sw ≤ maxWords
    · rw [if_pos h1] at hp
      refine ih (cur ++ [(s, sw)]) (cnt + sw) ?_ (Or.inl h1) p hp
      simp [sumWc, hcnt]
    · rw [if_neg h1] at hp
      have hnew : cnt + sw ≤ maxWords ∨ True := Or.inr trivial
      have hstep : sw = sumWc [(s, sw)] := by simp [sumWc]
      have hinv2 : sw ≤ maxWords ∨ ∃ a b, ([(s, sw)] : List (PyStr × Nat)) = [(a, b)] ∧ maxWords < b := by
        by_cases hsw : sw ≤ maxWords
        · exact Or.inl hsw
        · exact Or.inr ⟨s, sw, rfl, by omega⟩
      by_cases h2 : pystrip (joinChunk cur) = []
      · rw [if_pos h2] at hp
        exact ih [(s, sw)] sw hstep hinv2 p hp
      · rw [if_neg h2] at hp
        rcases List.mem_cons.mp hp with hpc | hpc
        · subst hpc
          rcases hinv with h3 | h3
          · left; omega
          · right; exact h3
        · exact ih [(s, sw)] sw hstep hinv2 p hpc

/-- Every sentence-count pair inside an emitted part comes from the
accumulated chunk or from the remaining input. -/
theorem chunkPartsLoop_mem (maxWords : Nat) (rest : List (PyStr × Nat)) :
    ∀ cur cnt p q, p ∈ chunkPartsLoop maxWords rest cur cnt → q ∈ p →
      q ∈ cur ∨ q ∈ rest := by
  induction rest with
  | nil =>
    intro cur cnt p q hp hq
    simp only [chunkPartsLoop] at hp
    by_cases h : pystrip (joinChunk cur) = []
    · rw [if_pos h] at hp; simp at hp
    · rw [if_neg h] at hp
      simp only [List.mem_singleton] at hp
      subst hp
      exact Or.inl hq
  | cons r rest ih =>
    intro cur cnt p q hp hq
    obtain ⟨s, sw⟩ := r
    simp only [chunkPartsLoop] at hp
    by_cases h1 : cnt + sw ≤ maxWords
    · rw [if_pos h1] at hp
      rcases ih _ _ p q hp hq with h | h
      · rcases List.mem_append.mp h with h2 | h2
        · exact Or.inl h2
        · simp only [List.mem_singleton] at h2
          subst h2
          exact Or.inr (List.mem_cons_self _ _)
      · exact Or.inr (List.mem_cons_of_mem _ h)
    · rw [if_neg h1] at hp
      have hrec : p ∈ chunkPartsLoop maxWords rest [(s, sw)] sw →
          q ∈ cur ∨ q ∈ (s, sw) :: rest := by
        intro hp2
        rcases ih _ _ p q hp2 hq with h | h
        · simp only [List.mem_singleton] at h
          subst h
          exact Or.inr (List.mem_cons_self _ _)
        · exact Or.inr (List.mem_cons_of_mem _ h)
      by_cases h2 : pystrip (joinChunk cur) = []
      · rw [if_pos h2] at hp
        exact hrec hp
      · rw [if_neg h2] at hp
        rcases List.mem_cons.mp hp with hpc | hpc
        · subst hpc; exact Or.inl hq
        · exact hrec hpc

/-! ## Claim C4: chunk size bound -/

/-- C4: for every word counter, positive word budget, and sentence list,
the chunks of `chunk_text` are exactly the stripped joined texts of the
sentence partition, and every part of that partition either has total word
count at most `maxWords` or consists of exactly one sentence whose own word
count exceeds `maxWords` (and is therefore emitted alone). -/
theorem chunk_text_word_count_bound (wc : PyStr → Nat) (maxWords : Nat)
    (sentences : List PyStr) (_hpos : 0 < maxWords) :
    chunk_text_sentences wc maxWords sentences =
      (chunkPartition wc maxWords sentences).map (fun p => pystrip (joinChunk p)) ∧
    ∀ p ∈ chunkPartition wc maxWords sentences,
      sumWc p ≤ maxWords ∨ ∃ s, p = [(s, wc s)] ∧ maxWords < wc s := by
  constructor
  · have h := chunkLoop_eq_parts maxWords (sentences.map (fun s => (s, wc s))) [] 0
    simpa [chunk_text_sentences, chunkPartition, joinChunk] using h
  · intro p hp
    have hb := chunkPartsLoop_bound maxWords (sentences.map (fun s => (s, wc s)))
      [] 0 (by simp [sumWc]) (Or.inl (Nat.zero_le _)) p hp
    rcases hb with h | ⟨s, sw, hps, hlt⟩
    · exact Or.inl h
    · right
      have hq : (s, sw) ∈ p := by simp [hps]
      have := chunkPartsLoop_mem maxWords (sentences.map (fun s => (s, wc s)))
        [] 0 p (s, sw) hp hq
      rcases this with h | h
      · simp at h
      · obtain ⟨a, _, hpair⟩ := List.mem_map.mp h
        obtain ⟨h1, h2⟩ := Prod.mk.injEq _ _ _ _ ▸ hpair
        exact ⟨s, by rw [hps, ← h1, h2], by rw [← h1, h2]; exact hlt⟩

/-- Witness for `chunk_text_word_count_bound` at a concrete input: budget 2
with sentences of 2 and 3 words; the 3-word sentence exceeds the budget and
is emitted alone. -/
theorem chunk_text_word_count_bound_witness :
    chunk_text_sentences wordCountModel 2 [S "ab cd", S "e f g"] =
      (chunkPartition wordCountModel 2 [S "ab cd", S "e f g"]).map
        (fun p => pystrip (joinChunk p)) ∧
    ∀ p ∈ chunkPartition wordCountModel 2 [S "ab cd", S "e f g"],
      sumWc p ≤ 2 ∨ ∃ s, p = [(s, wordCountModel s)] ∧ 2 < wordCountModel s :=
  chunk_text_word_count_bound wordCountModel 2 [S "ab cd", S "e f g"] (by decide)

/-! ## Word-sequence lemmas for the chunking round trip -/

theorem wordsAux_append_space (a : PyStr) :
    ∀ acc b, wordsAux (a ++ ' ' :: b) acc = wordsAux a acc ++ wordsAux b [] := by
  induction a with
  | nil =>
    intro acc b
    simp only [List.nil_append, wordsAux]
    have hws : isWS ' ' = true := by decide
    rw [if_pos hws]
    cases acc with
    | nil => simp [wordsAux]
    | cons x xs => simp [wordsAux]
  | cons c cs ih =>
    intro acc b
    simp only [List.cons_append, wordsAux]
    by_cases hc : isWS c = true
    · rw [if_pos hc, if_pos hc]
      cases acc with
      | nil => simp only [List.isEmpty_nil, if_true]; exact ih [] b
      | cons x xs =>
        simp only [List.isEmpty_cons, Bool.false_eq_true, if_false,
          List.append_eq]
        rw [ih [] b, List.cons_append]
    · rw [if_neg hc, if_neg hc]
      exact ih (c :: acc) b

theorem wordsOf_append_space_cons (a b : PyStr) :
    wordsOf (a ++ ' ' :: b) = wordsOf a ++ wordsOf b :=
  wordsAux_append_space a [] b

theorem wordsOf_append_space (a : PyStr) : wordsOf (a ++ S " ") = wordsOf a := by
  have : a ++ S " " = a ++ ' ' :: [] := rfl
  rw [this, wordsOf_append_space_cons]
  simp [wordsOf, wordsAux]

theorem wordsAux_trimRight (s : PyStr) :
    ∀ acc, wordsAux (trimRight s) acc = wordsAux s acc := by
  induction s with
  | nil => intro acc; rfl
  | cons c cs ih =>
    intro acc
    simp only [trimRight]
    by_cases hcond : (isWS c && (trimRight cs).isEmpty) = true
    · rw [if_pos hcond]
      simp only [Bool.and_eq_true, List.isEmpty_iff] at hcond
      obtain ⟨hc, hnil⟩ := hcond
      have hcs : wordsAux cs [] = [] := by
        rw [← ih []]
        rw [hnil]
        rfl
      simp only [wordsAux, hc, if_true]
      cases acc with
      | nil => simp [hcs]
      | cons x xs => simp [hcs, wordsAux]
    · rw [if_neg hcond]
      simp only [wordsAux]
      by_cases hc : isWS c = true
      · rw [if_pos hc, if_pos hc]
        cases acc with
        | nil => simp only [List.isEmpty_nil, if_true]; exact ih []
        | cons x xs =>
          simp only [List.isEmpty_cons, Bool.false_eq_true, if_false]
          rw [ih []]
      · rw [if_neg hc, if_neg hc]
        exact ih (c :: acc)

theorem wordsOf_trimLeft (s : PyStr) : wordsOf (trimLeft s) = wordsOf s := by
  induction s with
  | nil => rfl
  | cons c cs ih =>
    by_cases hc : isWS c = true
    · have h1 : trimLeft (c :: cs) = trimLeft cs := by
        simp [trimLeft, List.dropWhile_cons, hc]
      rw [h1, ih]
      simp [wordsOf, wordsAux, hc]
    · rw [trimLeft_head_not_ws c cs (by simpa using hc)]

theorem wordsOf_pystrip (s : PyStr) : wordsOf (pystrip s) = wordsOf s := by
  unfold pystrip
  have h1 : wordsOf (trimRight (trimLeft s)) = wordsOf (trimLeft s) :=
    wordsAux_trimRight (trimLeft s) []
  rw [h1, wordsOf_trimLeft]

theorem wordsOf_nil_of_pystrip_nil (s : PyStr) (h : pystrip s = []) :
    wordsOf s = [] := by
  rw [← wordsOf_pystrip s, h]
  rfl

theorem wordsOf_append_of_trailing (cur s : PyStr)
    (h : cur = [] ∨ ∃ a, cur = a ++ S " ") :
    wordsOf (cur ++ s) = wordsOf cur ++ wordsOf s := by
  rcases h with h | ⟨a, h⟩
  · subst h; rfl
  · subst h
    have h1 : (a ++ S " ") ++ s = a ++ ' ' :: s := by
      rw [List.append_assoc]; rfl
    rw [h1, wordsOf_append_space_cons, wordsOf_append_space]

theorem flatWords_cons (x : PyStr) (l : List PyStr) :
    flatWords (x :: l) = wordsOf x ++ flatWords l := by
  simp [flatWords]

theorem wordsOf_joinSp (l : List PyStr) : wordsOf (joinSp l) = flatWords l := by
  induction l with
  | nil => rfl
  | cons x l ih =>
    cases l with
    | nil => simp [joinSp, flatWords]
    | cons y m =>
      rw [show joinSp (x :: y :: m) = x ++ ' ' :: joinSp (y :: m) from rfl,
        wordsOf_append_space_cons, ih, flatWords_cons x (y :: m),
        flatWords_cons y m]

/-- The chunking loop preserves the word sequence: the words of all emitted
chunks are exactly the words of the pending chunk followed by the words of
the remaining sentences. -/
theorem chunkLoop_flatWords (maxWords : Nat) (rest : List (PyStr × Nat)) :
    ∀ cur cnt, (cur = [] ∨ ∃ a, cur = a ++ S " ") →
      flatWords (chunkLoop maxWords rest cur cnt) =
        wordsOf cur ++ flatWords (rest.map Prod.fst) := by
  induction rest with
  | nil =>
    intro cur cnt hcur
    simp only [chunkLoop]
    by_cases h : pystrip cur = []
    · rw [if_pos h]
      simp [flatWords, wordsOf_nil_of_pystrip_nil cur h]
    · rw [if_neg h]
      simp [flatWords, wordsOf_pystrip]
  | cons q rest ih =>
    intro cur cnt hcur
    obtain ⟨s, sw⟩ := q
    simp only [chunkLoop]
    by_cases h1 : cnt + sw ≤ maxWords
    · rw [if_pos h1]
      have hnew : (cur ++ s ++ S " ") = [] ∨ ∃ a, cur ++ s ++ S " " = a ++ S " " :=
        Or.inr ⟨cur ++ s, rfl⟩
      rw [ih _ _ hnew]
      have h2 : wordsOf (cur ++ s ++ S " ") = wordsOf cur ++ wordsOf s := by
        rw [wordsOf_append_space, wordsOf_append_of_trailing cur s hcur]
      rw [h2]
      simp [flatWords, List.append_assoc]
    · rw [if_neg h1]
      have hnew : (s ++ S " ") = [] ∨ ∃ a, s ++ S " " = a ++ S " " :=
        Or.inr ⟨s, rfl⟩
      by_cases h2 : pystrip cur = []
      · rw [if_pos h2, ih _ _ hnew, wordsOf_append_space]
        simp [wordsOf_nil_of_pystrip_nil cur h2, flatWords]
      · rw [if_neg h2]
        rw [flatWords_cons, ih _ _ hnew, wordsOf_append_space, wordsOf_pystrip]
        simp [flatWords, List.append_assoc]

/-! ## Claim C3: chunking round trip -/

/-- C3 as amended: relative to whitespace normalization (the
whitespace-separated word sequence), the chunks of `chunk_text` reproduce
the input text losslessly whenever the sentence detector is lossless, i.e.
whenever the words of its sentence list are the words of the input text.
This holds for every word counter and budget.  It fails for the `'. '`
fallback split, which consumes the sentence separators themselves (see
`chunk_text_fallback_loses_separators`). -/
theorem chunk_text_round_trip (wc : PyStr → Nat) (maxWords : Nat)
    (sentences : List PyStr) (text : PyStr)
    (hdet : flatWords sentences = wordsOf text) :
    wordsOf (joinSp (chunk_text_sentences wc maxWords sentences)) =
      wordsOf text := by
  rw [wordsOf_joinSp]
  unfold chunk_text_sentences
  rw [chunkLoop_flatWords maxWords _ [] 0 (Or.inl rfl)]
  have hmap : (sentences.map (fun s => (s, wc s))).map Prod.fst = sentences := by
    rw [List.map_map]
    exact List.map_id sentences
  rw [hmap]
  simpa [wordsOf, wordsAux] using hdet

/-- Witness for `chunk_text_round_trip` at a concrete input with two
sentences and budget 3. -/
theorem chunk_text_round_trip_witness :
    wordsOf (joinSp (chunk_text_sentences wordCountModel 3
        [S "Hello there.", S "Bye now."])) =
      wordsOf (S "Hello there. Bye now.") :=
  chunk_text_round_trip wordCountModel 3 [S "Hello there.", S "Bye now."]
    (S "Hello there. Bye now.") (by decide)

/-- C3, counterexample: with the sentence detector unavailable the fallback
`text.split('. ')` drops every `'. '` separator, so even after whitespace
normalization the chunk texts do not reproduce the input: `"A. B"` becomes
the single chunk `"A B"`. -/
theorem chunk_text_fallback_loses_separators :
    ¬ (wordsOf (joinSp (chunk_text_sentences wordCountModel 1000
          (splitDotSpace (S "A. B")))) = wordsOf (S "A. B")) := by decide

/-! ## Notes Synthesis Pipeline (backend/app.py lines 459-801)

External effects are collected in `NotesOracles`: the NLTK tokenizers and
the Hugging Face generation endpoint may fail (`Except.error` models a
raised exception), and the timestamp is an oracle value.  Every `try ...
except` of the source becomes a `match` on the oracle result at exactly the
covered call; pure Python code in between is total, so a Lean function
returning `PyStr` rather than `Except` mirrors the fact that the
corresponding source function propagates no exception. -/

/-- The external dependencies of the notes pipeline.  `hfQuery text kind`
models `query_huggingface_model(text, kind)` returning the stripped
generated text or raising; `sentTok` and `wordTok` model
`nltk.sent_tokenize` and `nltk.word_tokenize`; `nowStr` models the
formatted timestamp `datetime.now().strftime('%Y-%m-%d %H:%M')`. -/
structure NotesOracles where
  sentTok : PyStr → Except Unit (List PyStr)
  wordTok : PyStr → Except Unit (List PyStr)
  hfQuery : PyStr → PyStr → Except Unit PyStr
  nowStr : PyStr

/-- `title if title else 'Smart Notes'`, the repeated title default of the
source. -/
def titleOr (title : PyStr) : PyStr :=
  if title = [] then S "Smart Notes" else title

/-- Decimal rendering of a natural number, modeling Python string
formatting of an int. -/
def natToStr (n : Nat) : PyStr := (Nat.repr n).data

/-- `chunk_text(text, max_words)` (lines 344-372): sentence-tokenize
(falling back to `text.split('. ')` when the tokenizer raises), then run
the greedy accumulation loop; `word_tokenize` is invoked on every sentence
and an exception there propagates out of the whole call, since only
`sent_tokenize` is inside the `try`. -/
def chunk_text (o : NotesOracles) (text : PyStr) (maxWords : Nat) :
    Except Unit (List PyStr) := do
  let sentences := match o.sentTok text with
    | .ok ss => ss
    | .error _ => splitDotSpace text
  let counted ← sentences.mapM (fun s =>
    (o.wordTok s).map (fun ws => (s, ws.length)))
  return chunkLoop maxWords counted [] 0

/-- Search for the pattern `step\s*\d` at one position of the lowered
text. -/
def stepAt (s : PyStr) : Bool :=
  (S "step").isPrefixOf s &&
    ((s.drop 4).dropWhile (fun c => isWS c)).head?.elim false Char.isDigit

/-- Search for the pattern `\d+\.` at one position. -/
def digitDotAt (s : PyStr) : Bool :=
  match s with
  | c :: _ => c.isDigit && (s.dropWhile Char.isDigit).head?.elim false (fun d => d = '.')
  | [] => false

/-- `re.search(r'step\s*\d|\d+\.', text)`: some position matches either
alternative. -/
def hasStepPattern : PyStr → Bool
  | [] => false
  | c :: cs => stepAt (c :: cs) || digitDotAt (c :: cs) || hasStepPattern cs

/-- `add_process_diagram` (lines 652-660). -/
def add_process_diagram (text : PyStr) : PyStr :=
  if hasStepPattern (pyLower text) then
    text ++ S "\n\n### Process Flow\n```\n[Start] → [Step 1] → [Step 2] → [Step 3] → [End]\n```\n\n"
  else text

/-- `add_relationship_diagram` (lines 662-669). -/
def add_relationship_diagram (text : PyStr) : PyStr :=
  if [S "versus", S "compared to", S "relationship"].any
      (fun w => occursIn w (pyLower text)) then
    text ++ S "\n\n### Relationship Map\n```\n   Concept A\n      ↓\n  [Relationship]\n      ↓\n   Concept B\n```\n\n"
  else text

/-- Order-preserving removal of duplicates keeping first occurrences
(`list(dict.fromkeys(topics))`), fuel-driven for kernel reducibility. -/
def dedupFuel : Nat → List PyStr → List PyStr
  | 0, l => l
  | _, [] => []
  | fuel + 1, x :: xs => x :: dedupFuel fuel (xs.filter (fun y => ¬ y = x))

/-- First-occurrence deduplication of a list of strings. -/
def dedupFirst (l : List PyStr) : List PyStr := dedupFuel l.length l

/-- The captured group of `^#+\s*(.+)$` on one line starting with `#`:
greedy `\s*` then at least one character, with one final whitespace
character yielded back when the rest of the line is all whitespace. -/
def headingCapture (rest : PyStr) : Option PyStr :=
  let body := rest.dropWhile (fun c => isWS c)
  if body = [] then
    match rest.getLast? with
    | some c => some [c]
    | none => none
  else some body

/-- `re.sub(r'[^\w\s]', '', t).strip()`, the topic cleanup of
`extract_mind_map_topics`. -/
def cleanTopic (t : PyStr) : PyStr :=
  pystrip (t.filter (fun c => isWordChar c || isWS c))

/-- Heading topics of `extract_mind_map_topics`: per line matching
`^#+\s*(.+)$`, the cleaned capture if non-empty and longer than 3. -/
def headingTopicsOf (lines : List PyStr) : List PyStr :=
  (lines.map (fun line =>
    if line.head?.elim false (fun c => c = '#') then
      match headingCapture (line.dropWhile (fun c => c = '#')) with
      | some cap =>
        let clean := cleanTopic cap
        if ¬ clean = [] ∧ 3 < clean.length then [clean] else []
      | none => []
    else [])).flatten

/-- The captured group of `^[-•*]\s*([A-Z][^.!?]+?)(?:[.!?]|$)` on one
line: bullet marker, greedy whitespace, an ASCII capital, then a lazy run
of non-terminator characters ended by a sentence terminator or the end of
the line. -/
def bulletCapture (line : PyStr) : Option PyStr :=
  match line with
  | c :: rest =>
    if c = '-' || c = '•' || c = '*' then
      match rest.dropWhile (fun x => isWS x) with
      | u :: tail =>
        if 'A' ≤ u ∧ u ≤ 'Z' then
          let body := tail.takeWhile (fun x => ¬ (x = '.' ∨ x = '!' ∨ x = '?'))
          if body = [] then none else some (u :: body)
        else none
      | [] => none
    else none
  | [] => none

/-- Bullet topics of `extract_mind_map_topics`: cleaned captures that are
non-empty, longer than 5, and at most 4 words. -/
def bulletTopicsOf (lines : List PyStr) : List PyStr :=
  (lines.map (fun line =>
    match bulletCapture line with
    | some cap =>
      let clean := cleanTopic cap
      if ¬ clean = [] ∧ 5 < clean.length ∧ (wordsOf clean).length ≤ 4 then
        [clean]
      else []
    | none => [])).flatten

/-- `extract_mind_map_topics` (lines 700-725): heading topics, then bullet
topics, deduplicated keeping first occurrences, capped at 6. -/
def extract_mind_map_topics (text : PyStr) : List PyStr :=
  (dedupFirst (headingTopicsOf (splitNL text) ++ bulletTopicsOf (splitNL text))).take 6

/-- One mind-map branch line `f"     [{topic[:12]}...]\n"`. -/
def mindBranch0 (t : PyStr) : PyStr := S "     [" ++ t.take 12 ++ S "...]\n"

/-- Second mind-map branch line. -/
def mindBranch1 (t : PyStr) : PyStr :=
  S "                              [" ++ t.take 12 ++ S "...]\n"

/-- Third mind-map branch line; with more than 3 topics the source prints
the same topic twice on one line. -/
def mindBranch2 (t : PyStr) (many : Bool) : PyStr :=
  if many then
    S "  [" ++ t.take 12 ++ S "...]                     [" ++ t.take 12 ++ S "...]\n"
  else S "     [" ++ t.take 12 ++ S "...]\n"

/-- `add_mind_map` (lines 671-698): when at least 3 topics are extracted,
append the mind-map block; otherwise return the text unchanged. -/
def add_mind_map (text : PyStr) : PyStr :=
  let topics := extract_mind_map_topics text
  match topics with
  | t0 :: t1 :: t2 :: restT =>
    text ++ S "\n\n### Mind Map Overview\n```\n" ++
      S "                    [MAIN TOPIC]\n" ++
      S "                         |\n" ++
      S "        ┌────────────────┼────────────────┐\n" ++
      mindBranch0 t0 ++ mindBranch1 t1 ++
      mindBranch2 t2 (¬ restT = []) ++
      S "\n    💡 Key concepts interconnected above\n" ++ S "```\n\n"
  | _ => text

/-- One pass of `enhance_bullet_points` on one line: a line whose matched
prefix is `- ` followed by one of the keywords has the `- ` replaced by the
symbol and a space. -/
def bulletLine (kws : List PyStr) (sym : PyStr) (line : PyStr) : PyStr :=
  if (S "- ").isPrefixOf line ∧ kws.any (fun k => k.isPrefixOf (line.drop 2)) then
    sym ++ S " " ++ line.drop 2
  else line

/-- One `re.sub(r'^- (K1|K2|K3)', sym + r' \1', text, flags=re.MULTILINE)`
pass of `enhance_bullet_points`, applied per line. -/
def bulletPass (kws : List PyStr) (sym : PyStr) (s : PyStr) : PyStr :=
  joinNL ((splitNL s).map (bulletLine kws sym))

/-- `enhance_bullet_points` (lines 727-735): the five keyword passes in
source order. -/
def enhance_bullet_points (text : PyStr) : PyStr :=
  bulletPass [S "Problem", S "Issue", S "Con"] (S "❌")
    (bulletPass [S "Benefit", S "Advantage", S "Pro"] (S "✨")
      (bulletPass [S "Note", S "Remember", S "Warning"] (S "⚠️")
        (bulletPass [S "Action", S "Task", S "Do"] (S "✅")
          (bulletPass [S "Key", S "Main", S "Important"] (S "🔑") text))))

/-- The keyword alternation of the first emphasis pattern
`\b(conclusion|summary|key point|important|critical|essential)\b`. -/
def emphasisKeywords : List PyStr :=
  [S "conclusion", S "summary", S "key point", S "important", S "critical",
   S "essential"]

/-- A word boundary holds before the current position when there is no
previous character or the previous character is not a word character (all
our patterns start with a word character). -/
def boundaryOK (prev : Option Char) : Bool :=
  match prev with
  | none => true
  | some c => !isWordChar c

/-- Matcher for the keyword-emphasis pattern, case-insensitive, with word
boundaries on both sides; the replacement `**\1**` preserves the original
casing of the matched span. -/
def emphMatcher (prev : Option Char) (s : PyStr) : Option MatchStep :=
  if boundaryOK prev then
    emphasisKeywords.findSome? (fun k =>
      if ciIsPrefixOf k s &&
          ((s.drop k.length).head?.elim true (fun c => !isWordChar c)) then
        some (S "**" ++ s.take k.length ++ S "**",
          (s.take k.length).getLast?, s.drop k.length)
      else none)
  else none

/-- Matcher for `\b(\d+%)\b`: a maximal digit run, a percent sign, and a
trailing word boundary, which after the non-word `%` requires the next
character to be a word character. -/
def pctMatcher (prev : Option Char) (s : PyStr) : Option MatchStep :=
  if boundaryOK prev then
    match s with
    | c :: _ =>
      if c.isDigit then
        let ds := s.takeWhile Char.isDigit
        let rest := s.drop ds.length
        match rest with
        | r :: r2 =>
          if r = '%' ∧ r2.head?.elim false (fun x => isWordChar x) then
            some (S "**" ++ ds ++ S "%**", some '%', r2)
          else none
        | [] => none
      else none
    | [] => none
  else none

/-- Matcher for `\$([\d,]+)`: a literal dollar sign followed by at least
one digit or comma, taken greedily. -/
def dollarMatcher (_ : Option Char) (s : PyStr) : Option MatchStep :=
  match s with
  | c :: rest =>
    if c = '$' then
      let run := rest.takeWhile (fun x => x.isDigit || x = ',')
      if run = [] then none
      else some (S "**$" ++ run ++ S "**", run.getLast?, rest.drop run.length)
    else none
  | [] => none

/-- `add_emphasis_formatting` (lines 737-749): the three substitution
passes in source order. -/
def add_emphasis_formatting (text : PyStr) : PyStr :=
  rsub dollarMatcher (rsub pctMatcher (rsub emphMatcher text))

/-- `add_visual_enhancements` (lines 624-650): conditionally append the
three diagram blocks (each gate tests keywords against the lowered input
notes), then rewrite bullet prefixes and add emphasis. -/
def add_visual_enhancements (notes : PyStr) : PyStr :=
  let lower := pyLower notes
  let e1 := if [S "process", S "steps", S "workflow", S "procedure"].any
      (fun k => occursIn k lower) then add_process_diagram notes else notes
  let e2 := if [S "relationship", S "connection", S "between", S "versus"].any
      (fun k => occursIn k lower) then add_relationship_diagram e1 else e1
  let e3 := if [S "concept", S "topic", S "analysis", S "overview"].any
      (fun k => occursIn k lower) then add_mind_map e2 else e2
  add_emphasis_formatting (enhance_bullet_points e3)

/-- Index of the first case-insensitive occurrence of `pat`. -/
def findCIAux (pat : PyStr) : PyStr → Nat → Option Nat
  | [], i => if ciIsPrefixOf pat [] then some i else none
  | c :: cs, i =>
    if ciIsPrefixOf pat (c :: cs) then some i else findCIAux pat cs (i + 1)

/-- Index of the first case-insensitive occurrence of `pat` in `s`. -/
def findCI (pat s : PyStr) : Option Nat := findCIAux pat s 0

/-- `re.sub(r'^.*?Structured Notes:?\s*', '', s, flags=re.IGNORECASE)`:
anchored at the start, the lazy `.*?` cannot cross a newline, so the match
exists exactly when `structured notes` occurs in the first line; everything
up to it, an optional colon and all following whitespace (which may cross
newlines) are removed. -/
def stripStructuredNotesEcho (s : PyStr) : PyStr :=
  let firstLine := s.takeWhile (fun c => ¬ c = '\n')
  match findCI (S "structured notes") firstLine with
  | none => s
  | some i =>
    let after := s.drop (i + 16)
    let after2 := if after.head?.elim false (fun c => c = ':') then
      after.drop 1 else after
    after2.dropWhile (fun c => isWS c)

/-- `re.sub(r'^.*?Text:.*?\n', '', s, flags=re.DOTALL | re.IGNORECASE)`:
with DOTALL the lazy prefix reaches the first `text:` anywhere, and the
match extends to the first newline after it; without such a newline there
is no match. -/
def stripTextEcho (s : PyStr) : PyStr :=
  match findCI (S "text:") s with
  | none => s
  | some i =>
    let rest := s.drop (i + 5)
    match rest.findIdx? (fun c => c = '\n') with
    | none => s
    | some j => rest.drop (j + 1)

/-- `format_notes_output` (lines 597-622): strip prompt echoes, force a
leading heading, apply the visual enhancements and append the timestamp
footer.  The `except` branch of the source (returning the raw content) is
unreachable here because every step is pure. -/
def format_notes_output (o : NotesOracles) (notes_content title : PyStr) :
    PyStr :=
  let f1 := stripStructuredNotesEcho notes_content
  let f2 := stripTextEcho f1
  let f3 := if (S "#").isPrefixOf f2 then f2
    else S "# " ++ titleOr title ++ S "\n\n" ++ f2
  add_visual_enhancements f3 ++ S "\n\n---\n*Generated on " ++ o.nowStr ++
    S " by Smart Notes AI*"

/-- `format_basic_notes` (lines 780-782). -/
def format_basic_notes (text title : PyStr) : PyStr :=
  S "# " ++ titleOr title ++ S "\n\n## Content\n\n" ++ text ++
    S "\n\n*Note: Content was too brief for advanced processing.*"

/-- The importance indicators of `create_fallback_notes` (line 766). -/
def importance_indicators : List PyStr :=
  [S "important", S "key", S "significant", S "main", S "primary",
   S "conclusion"]

/-- `create_fallback_notes` (lines 751-778): first three sentences plus up
to five keyword-bearing sentences among the next five, bulleted under a
`Key Information` heading; if sentence tokenization raises, the terminal
fallback is the title heading plus the first 500 characters. -/
def create_fallback_notes (o : NotesOracles) (text title : PyStr) : PyStr :=
  match o.sentTok text with
  | .error _ =>
    S "# " ++ titleOr title ++ S "\n\n" ++ text.take 500 ++ S "..."
  | .ok sentences =>
    let important := sentences.take 3 ++
      ((sentences.drop 3).take 5).filter (fun s =>
        importance_indicators.any (fun k => occursIn k (pyLower s)))
    let bullets := (important.take 5).map (fun s =>
      S "- " ++ pystrip s ++ S "\n")
    S "# " ++ titleOr title ++ S "\n\n## Key Information\n\n" ++
      bullets.flatten ++ S "\n## Summary\n\n" ++ S "This content covers " ++
      natToStr sentences.length ++
      S " main points with key information extracted above."

/-- `create_extractive_summary` (lines 784-792). -/
def create_extractive_summary (o : NotesOracles) (text : PyStr) : PyStr :=
  match o.sentTok text with
  | .error _ => text.take 200 ++ S "..."
  | .ok sentences =>
    joinNL ((sentences.take (min 3 sentences.length)).map (fun s =>
      S "- " ++ pystrip s))

/-- `extract_topics_from_chunk` (lines 539-558): up to 2 candidate words
(longer than 4 characters, alphabetic) from each of the first 3 sentences
with more than 5 tokens; any tokenizer failure yields `[]` through the
internal `except`.  Python iterates `list(set(topics))`, whose order is
implementation-defined; it is modeled as first-occurrence order (the result
feeds only `combine_chunk_notes`, which ignores it). -/
def extract_topics_from_chunk (o : NotesOracles) (chunk : PyStr) :
    List PyStr :=
  match (do
    let sentences ← o.sentTok chunk
    let wss ← (sentences.take 3).mapM (fun s => o.wordTok (pyLower s))
    Except.ok ((wss.map (fun words =>
      if 5 < words.length then
        (words.filter (fun w => 4 < w.length && (¬ w = []) &&
          w.all Char.isAlpha)).take 2
      else [])).flatten) : Except Unit (List PyStr)) with
  | .error _ => []
  | .ok topics => (dedupFirst topics).take 5

/-- `create_structured_notes` (lines 480-504): the three-prompt degradation
ladder; any generation exception falls back to `create_fallback_notes`. -/
def create_structured_notes (o : NotesOracles) (text title : PyStr) : PyStr :=
  match o.hfQuery text (S "structured_notes") with
  | .error _ => create_fallback_notes o text title
  | .ok structured =>
    if ¬ structured = [] ∧ 100 < structured.length then
      format_notes_output o structured title
    else
      match o.hfQuery text (S "key_insights") with
      | .error _ => create_fallback_notes o text title
      | .ok insights =>
        if ¬ insights = [] then format_notes_output o insights title
        else
          match o.hfQuery text (S "topic_breakdown") with
          | .error _ => create_fallback_notes o text title
          | .ok topic =>
            format_notes_output o (if topic = [] then text.take 500 else topic)
              title

/-- `'\n\n'.join`, used by `combine_chunk_notes`. -/
def joinNN : List PyStr → PyStr
  | [] => []
  | [x] => x
  | x :: y :: l => x ++ S "\n\n" ++ joinNN (y :: l)

/-- The numbered `## Section i` blocks of `format_basic_combination`. -/
def sectionBlocks : Nat → List PyStr → PyStr
  | _, [] => []
  | i, n :: ns =>
    S "## Section " ++ natToStr i ++ S "\n\n" ++ n ++ S "\n\n" ++
      sectionBlocks (i + 1) ns

/-- `format_basic_combination` (lines 794-801). -/
def format_basic_combination (chunk_notes : List PyStr) (title : PyStr) :
    PyStr :=
  S "# " ++ titleOr title ++ S "\n\n" ++ sectionBlocks 1 chunk_notes

/-- `combine_chunk_notes` (lines 560-595): join the chunk notes with blank
lines; within 1.5 x 1000 = 1500 words attempt one `topic_breakdown` call
over the joined notes (the constructed `final_prompt` string of the source
is never used), falling back to `format_basic_combination` if it raises;
otherwise format the joined notes directly.  The `topics` argument is
unused, as in the source. -/
def combine_chunk_notes (o : NotesOracles) (chunk_notes : List PyStr)
    (_topics : List PyStr) (title : PyStr) : PyStr :=
  let combined := joinNN chunk_notes
  if (wordsOf combined).length ≤ 1500 then
    match o.hfQuery combined (S "topic_breakdown") with
    | .error _ => format_basic_combination chunk_notes title
    | .ok final_notes =>
      format_notes_output o (if final_notes = [] then combined else final_notes)
        title
  else format_notes_output o combined title

/-- The per-chunk loop of `process_long_content` (lines 514-531): a
successful non-empty `key_insights` generation is appended together with
the extracted topics; an exception substitutes the extractive summary; an
empty generation appends nothing. -/
def processChunksAcc (o : NotesOracles) :
    List PyStr → List PyStr → List PyStr → List PyStr × List PyStr
  | [], notes, tops => (notes, tops)
  | c :: cs, notes, tops =>
    match o.hfQuery c (S "key_insights") with
    | .ok cNotes =>
      if cNotes = [] then processChunksAcc o cs notes tops
      else processChunksAcc o cs (notes ++ [cNotes])
        (tops ++ extract_topics_from_chunk o c)
    | .error _ =>
      processChunksAcc o cs (notes ++ [create_extractive_summary o c]) tops

/-- `process_long_content` (lines 506-537): chunk (an exception from the
word tokenizer inside `chunk_text` propagates), process each chunk, and
either fall back (no chunk notes at all) or combine. -/
def process_long_content (o : NotesOracles) (text title : PyStr) :
    Except Unit PyStr := do
  let chunks ← chunk_text o text 1000
  let (chunk_notes, chunk_topics) := processChunksAcc o chunks [] []
  if chunk_notes = [] then
    return create_fallback_notes o text title
  else
    return combine_chunk_notes o chunk_notes chunk_topics title

/-- `generate_smart_notes` (lines 459-478): fewer than 50 words is the
basic-notes terminal state; otherwise the single-chunk or multi-chunk path
runs under a `try` whose `except` produces `create_fallback_notes`.  The
function is total: every exception path of the source is caught. -/
def generate_smart_notes (o : NotesOracles) (text title : PyStr) : PyStr :=
  let word_count := (wordsOf text).length
  if word_count < 50 then format_basic_notes text title
  else
    match (if word_count ≤ 1000 then
        Except.ok (create_structured_notes o text title)
      else process_long_content o text title) with
    | .ok r => r
    | .error _ => create_fallback_notes o text title

/-! ## Heading-prefix lemmas for the notes pipeline -/

theorem head_append_of_hash (x y : PyStr) (h : x.head? = some '#') :
    (x ++ y).head? = some '#' := by
  cases x with
  | nil => simp at h
  | cons c cs => simpa using h

theorem head_hash_prefix (x : PyStr) : (S "# " ++ x).head? = some '#' := rfl

theorem head_of_isPrefixOf_hash (s : PyStr)
    (h : (S "#").isPrefixOf s = true) : s.head? = some '#' := by
  cases s with
  | nil => simp [S, List.isPrefixOf] at h
  | cons c cs =>
    have : ('#' == c) = true := by
      have h2 : (S "#").isPrefixOf (c :: cs) = ('#' == c && List.isPrefixOf [] cs) := rfl
    
      rw [h2] at h
      simpa using h
    have : c = '#' := (beq_iff_eq.mp this).symm
    simp [this]

theorem add_process_diagram_head (t : PyStr) (h : t.head? = some '#') :
    (add_process_diagram t).head? = some '#' := by
  unfold add_process_diagram
  split
  · exact head_append_of_hash _ _ h
  · exact h

theorem add_relationship_diagram_head (t : PyStr) (h : t.head? = some '#') :
    (add_relationship_diagram t).head? = some '#' := by
  unfold add_relationship_diagram
  split
  · exact head_append_of_hash _ _ h
  · exact h

theorem add_mind_map_head (t : PyStr) (h : t.head? = some '#') :
    (add_mind_map t).head? = some '#' := by
  simp only [add_mind_map]
  split
  · repeat apply head_append_of_hash
    exact h
  · exact h

theorem splitNL_ne_nil (s : PyStr) : ¬ splitNL s = [] := by
  cases s with
  | nil => simp [splitNL]
  | cons c cs =>
    simp only [splitNL]
    by_cases h : c = '\n'
    · rw [if_pos h]; simp
    · rw [if_neg h]
      cases splitNL cs with
      | nil => simp
      | cons p ps => simp

theorem splitNL_hash (cs : PyStr) :
    ∃ p ps, splitNL ('#' :: cs) = ('#' :: p) :: ps := by
  simp only [splitNL]
  rw [if_neg (by decide : ¬ ('#' : Char) = '\n')]
  cases h : splitNL cs with
  | nil => exact absurd h (splitNL_ne_nil cs)
  | cons p ps => exact ⟨p, ps, rfl⟩

theorem bulletLine_hash (kws : List PyStr) (sym : PyStr) (p : PyStr) :
    bulletLine kws sym ('#' :: p) = '#' :: p := by
  unfold bulletLine
  rw [if_neg]
  intro hcontra
  have h1 := hcontra.1
  have h2 : (S "- ").isPrefixOf ('#' :: p) = ('-' == '#' && List.isPrefixOf [' '] p) := rfl
  rw [h2] at h1
  simp at h1

theorem joinNL_head_hash (x : PyStr) (xs : List PyStr)
    (h : x.head? = some '#') : (joinNL (x :: xs)).head? = some '#' := by
  cases xs with
  | nil => exact h
  | cons y ys =>
    show (x ++ '\n' :: joinNL (y :: ys)).head? = some '#'
    exact head_append_of_hash _ _ h

theorem bulletPass_head (kws : List PyStr) (sym : PyStr) (s : PyStr)
    (h : s.head? = some '#') : (bulletPass kws sym s).head? = some '#' := by
  cases s with
  | nil => simp at h
  | cons c cs =>
    have hc : c = '#' := by simpa using h
    subst hc
    obtain ⟨p, ps, hsplit⟩ := splitNL_hash cs
    unfold bulletPass
    rw [hsplit, List.map_cons, bulletLine_hash]
    exact joinNL_head_hash _ _ rfl

theorem enhance_bullet_points_head (s : PyStr) (h : s.head? = some '#') :
    (enhance_bullet_points s).head? = some '#' := by
  unfold enhance_bullet_points
  exact bulletPass_head _ _ _ (bulletPass_head _ _ _ (bulletPass_head _ _ _
    (bulletPass_head _ _ _ (bulletPass_head _ _ _ h))))

theorem ciIsPrefixOf_hash_false (p : Char) (ps cs : PyStr)
    (hp : ¬ lowerChar p = lowerChar '#') :
    ciIsPrefixOf (p :: ps) ('#' :: cs) = false := by
  simp [ciIsPrefixOf, hp]

theorem emphMatcher_hash (prev : Option Char) (cs : PyStr) :
    emphMatcher prev ('#' :: cs) = none := by
  unfold emphMatcher
  split
  · have h1 : ciIsPrefixOf (S "conclusion") ('#' :: cs) = false := by
      rw [show S "conclusion" = 'c' :: S "onclusion" from rfl]
      exact ciIsPrefixOf_hash_false 'c' _ cs (by decide)
    have h2 : ciIsPrefixOf (S "summary") ('#' :: cs) = false := by
      rw [show S "summary" = 's' :: S "ummary" from rfl]
      exact ciIsPrefixOf_hash_false 's' _ cs (by decide)
    have h3 : ciIsPrefixOf (S "key point") ('#' :: cs) = false := by
      rw [show S "key point" = 'k' :: S "ey point" from rfl]
      exact ciIsPrefixOf_hash_false 'k' _ cs (by decide)
    have h4 : ciIsPrefixOf (S "important") ('#' :: cs) = false := by
      rw [show S "important" = 'i' :: S "mportant" from rfl]
      exact ciIsPrefixOf_hash_false 'i' _ cs (by decide)
    have h5 : ciIsPrefixOf (S "critical") ('#' :: cs) = false := by
      rw [show S "critical" = 'c' :: S "ritical" from rfl]
      exact ciIsPrefixOf_hash_false 'c' _ cs (by decide)
    have h6 : ciIsPrefixOf (S "essential") ('#' :: cs) = false := by
      rw [show S "essential" = 'e' :: S "ssential" from rfl]
      exact ciIsPrefixOf_hash_false 'e' _ cs (by decide)
    simp [emphasisKeywords, List.findSome?, h1, h2, h3, h4, h5, h6]
  · rfl

theorem pctMatcher_hash (prev : Option Char) (cs : PyStr) :
    pctMatcher prev ('#' :: cs) = none := by
  unfold pctMatcher
  split
  · have : ('#' : Char).isDigit = false := by decide
    simp [this]
  · rfl

theorem dollarMatcher_hash (prev : Option Char) (cs : PyStr) :
    dollarMatcher prev ('#' :: cs) = none := by
  unfold dollarMatcher
  have : ¬ ('#' : Char) = '$' := by decide
  simp [this]

theorem rsub_head_hash (m : Option Char → PyStr → Option MatchStep)
    (hm : ∀ cs, m none ('#' :: cs) = none) (s : PyStr)
    (h : s.head? = some '#') : (rsub m s).head? = some '#' := by
  cases s with
  | nil => simp at h
  | cons c cs =>
    have hc : c = '#' := by simpa using h
    subst hc
    unfold rsub
    rw [show ('#' :: cs : PyStr).length = cs.length + 1 from rfl,
      rsubFuel_cons_none m cs.length none '#' cs (hm cs)]
    rfl

theorem add_emphasis_formatting_head (s : PyStr) (h : s.head? = some '#') :
    (add_emphasis_formatting s).head? = some '#' := by
  unfold add_emphasis_formatting
  exact rsub_head_hash _ (fun cs => dollarMatcher_hash none cs) _
    (rsub_head_hash _ (fun cs => pctMatcher_hash none cs) _
      (rsub_head_hash _ (fun cs => emphMatcher_hash none cs) _ h))

theorem add_visual_enhancements_head (notes : PyStr)
    (h : notes.head? = some '#') :
    (add_visual_enhancements notes).head? = some '#' := by
  unfold add_visual_enhancements
  apply add_emphasis_formatting_head
  apply enhance_bullet_points_head
  split
  · apply add_mind_map_head
    split
    · apply add_relationship_diagram_head
      split
      · exact add_process_diagram_head _ h
      · exact h
    · split
      · exact add_process_diagram_head _ h
      · exact h
  · split
    · apply add_relationship_diagram_head
      split
      · exact add_process_diagram_head _ h
      · exact h
    · split
      · exact add_process_diagram_head _ h
      · exact h

theorem format_notes_output_head (o : NotesOracles) (notes title : PyStr) :
    (format_notes_output o notes title).head? = some '#' := by
  simp only [format_notes_output]
  apply head_append_of_hash
  apply head_append_of_hash
  apply head_append_of_hash
  apply add_visual_enhancements_head
  split
  case isTrue hpre => exact head_of_isPrefixOf_hash _ hpre
  case isFalse => exact head_hash_prefix _

theorem format_basic_notes_head (text title : PyStr) :
    (format_basic_notes text title).head? = some '#' := by
  unfold format_basic_notes
  apply head_append_of_hash
  apply head_append_of_hash
  apply head_append_of_hash
  exact head_hash_prefix _

theorem create_fallback_notes_head (o : NotesOracles) (text title : PyStr) :
    (create_fallback_notes o text title).head? = some '#' := by
  simp only [create_fallback_notes]
  cases o.sentTok text with
  | error e =>
    apply head_append_of_hash
    apply head_append_of_hash
    exact head_hash_prefix _
  | ok sentences =>
    apply head_append_of_hash
    apply head_append_of_hash
    apply head_append_of_hash
    apply head_append_of_hash
    apply head_append_of_hash
    exact head_hash_prefix _

theorem format_basic_combination_head (notes : List PyStr) (title : PyStr) :
    (format_basic_combination notes title).head? = some '#' := by
  unfold format_basic_combination
  apply head_append_of_hash
  exact head_hash_prefix _

theorem create_structured_notes_head (o : NotesOracles) (text title : PyStr) :
    (create_structured_notes o text title).head? = some '#' := by
  unfold create_structured_notes
  split
  · exact create_fallback_notes_head o text title
  · split
    · exact format_notes_output_head o _ _
    · split
      · exact create_fallback_notes_head o text title
      · split
        · exact format_notes_output_head o _ _
        · split
          · exact create_fallback_notes_head o text title
          · exact format_notes_output_head o _ _

theorem combine_chunk_notes_head (o : NotesOracles) (notes topics : List PyStr)
    (title : PyStr) :
    (combine_chunk_notes o notes topics title).head? = some '#' := by
  simp only [combine_chunk_notes]
  split
  · split
    · exact format_basic_combination_head notes title
    · exact format_notes_output_head o _ _
  · exact format_notes_output_head o _ _

theorem process_long_content_head (o : NotesOracles) (text title r : PyStr)
    (h : process_long_content o text title = .ok r) : r.head? = some '#' := by
  unfold process_long_content at h
  cases hc : chunk_text o text 1000 with
  | error e =>
    rw [hc] at h
    simp [Bind.bind, Except.bind] at h
  | ok chunks =>
    rw [hc] at h
    simp only [Bind.bind, Except.bind] at h
    split at h
    · have : r = create_fallback_notes o text title := by
        simpa [Pure.pure, Except.pure] using h.symm
      rw [this]
      exact create_fallback_notes_head o text title
    · have : r = combine_chunk_notes o (processChunksAcc o chunks [] []).1
          (processChunksAcc o chunks [] []).2 title := by
        simpa [Pure.pure, Except.pure] using h.symm
      rw [this]
      exact combine_chunk_notes_head o _ _ title

/-! ## Claim C1: synthesis always yields a heading and never raises -/

/-- C1: for every oracle behavior (in particular when every generation call
and the sentence tokenizer fail), every input text and every title,
`generate_smart_notes` returns a string whose first character is the
markdown heading marker `#`.  The function is total over `PyStr` (not
`Except`): every exception path of the source is caught, which is the
never-raises half of the claim. -/
theorem generate_smart_notes_starts_with_heading (o : NotesOracles)
    (text title : PyStr) :
    (generate_smart_notes o text title).head? = some '#' := by
  simp only [generate_smart_notes]
  split
  · exact format_basic_notes_head text title
  · cases hres : (if (wordsOf text).length ≤ 1000 then
        Except.ok (create_structured_notes o text title)
      else process_long_content o text title) with
    | ok r =>
      show r.head? = some '#'
      by_cases hle : (wordsOf text).length ≤ 1000
      · rw [if_pos hle] at hres
        injection hres with h2
        rw [← h2]
        exact create_structured_notes_head o text title
      · rw [if_neg hle] at hres
        exact process_long_content_head o text title r hres
    | error e =>
      show (create_fallback_notes o text title).head? = some '#'
      exact create_fallback_notes_head o text title

/-! ## Translation Orchestrator (`translate_content_with_retry`,
backend/app.py lines 1178-1239)

The list of configured services is built at startup only from `'gemini'`
and `'huggingface'` (lines 59-63), so services form a two-value type and
the `else: continue` arm of the dispatch is unreachable.  A behavior
function gives the outcome of each per-service call (`translate_with_gemini`
or `translate_content`) at each attempt index; the orchestrator model also
returns the trace of attempts and sleeps, so that call counts and backoff
delays can be stated. -/

deriving instance DecidableEq for Except

/-- A configured translation service. -/
inductive Service
  | gemini
  | huggingface
deriving DecidableEq

/-- The service name string used in log and error messages. -/
def serviceName : Service → PyStr
  | .gemini => S "gemini"
  | .huggingface => S "huggingface"

/-- The observable outcome of one per-service translation call: a returned
string, or one of the four caught exception classes with its message. -/
inductive AttemptOutcome
  | result (t : PyStr)
  | timeout (m : PyStr)
  | connError (m : PyStr)
  | reqError (m : PyStr)
  | exn (m : PyStr)
deriving DecidableEq

/-- The error strings recorded by the four `except` branches (lines
1209-1224). -/
def attemptErrMsg (svc : Service) : AttemptOutcome → PyStr
  | .result _ => []
  | .timeout m => serviceName svc ++ S " request timeout: " ++ m
  | .connError m => serviceName svc ++ S " connection error: " ++ m
  | .reqError m => serviceName svc ++ S " request failed: " ++ m
  | .exn m => serviceName svc ++ S " translation error: " ++ m

/-- Whether an outcome is one of the caught exceptions. -/
def isErrorOutcome : AttemptOutcome → Bool
  | .result _ => false
  | _ => true

/-- An event of the orchestration trace: a per-service call, or a sleep of
the given number of seconds. -/
inductive Ev
  | att (svc : Service) (i : Nat)
  | sleep (n : Nat)
deriving DecidableEq

/-- The acceptance check of line 1200:
`translated and translated.strip() and translated != content`. -/
def accepted (t content : PyStr) : Bool :=
  (¬ t = []) && (¬ pystrip t = []) && (¬ t = content)

/-- The attempt loop of `translate_content_with_retry` for one service
(lines 1188-1230), fuel-driven with `fuel = maxr - i` remaining attempts.
An accepted result returns immediately.  A rejected or empty result is not
recorded and sleeps 1 second before the next attempt (line 1206, whose
`continue` skips the backoff block).  A caught exception appends its
message to the error list and then sleeps `(i + 1) * 2` seconds when
attempts remain (lines 1227-1230). -/
def tryService (b : Service → Nat → AttemptOutcome) (svc : Service)
    (content : PyStr) (maxr : Nat) :
    Nat → Nat → List PyStr → Option PyStr × List PyStr × List Ev
  | 0, _, errs => (none, errs, [])
  | fuel + 1, i, errs =>
    match b svc i with
    | .result t =>
      if accepted t content then (some t, errs, [Ev.att svc i])
      else if i < maxr - 1 then
        let r := tryService b svc content maxr fuel (i + 1) errs
        (r.1, r.2.1, Ev.att svc i :: Ev.sleep 1 :: r.2.2)
      else (none, errs, [Ev.att svc i])
    | o =>
      let errs2 := errs ++ [attemptErrMsg svc o]
      if i < maxr - 1 then
        let r := tryService b svc content maxr fuel (i + 1) errs2
        (r.1, r.2.1, Ev.att svc i :: Ev.sleep ((i + 1) * 2) :: r.2.2)
      else (none, errs2, [Ev.att svc i])

/-- Python `l[-n:]`. -/
def lastN (n : Nat) (l : List PyStr) : List PyStr := l.drop (l.length - n)

/-- Model of `'; '.join(l)`. -/
def joinSemicolon : List PyStr → PyStr
  | [] => []
  | [x] => x
  | x :: y :: l => x ++ S "; " ++ joinSemicolon (y :: l)

/-- The service loop of `translate_content_with_retry` (lines 1185-1239):
try each configured service in order, carrying the recorded errors across
services; when all are exhausted, raise `ValueError` with the aggregation
of the last 3 recorded errors. -/
def retryGo (b : Service → Nat → AttemptOutcome) (content : PyStr)
    (maxr : Nat) :
    List Service → List PyStr → List Ev → Except PyStr PyStr × List Ev
  | [], errs, tr =>
    (.error (S "Translation failed with all available services. Last errors: " ++
      joinSemicolon (lastN 3 errs)), tr)
  | svc :: rest, errs, tr =>
    match tryService b svc content maxr maxr 0 errs with
    | (some t, _, tr2) => (.ok t, tr ++ tr2)
    | (none, errs2, tr2) => retryGo b content maxr rest errs2 (tr ++ tr2)

/-- `translate_content_with_retry(content, target, source, max_retries)`:
the target and source languages are consumed only by the per-service calls,
which the behavior `b` abstracts. -/
def translate_content_with_retry (b : Service → Nat → AttemptOutcome)
    (services : List Service) (content _target _source : PyStr)
    (maxr : Nat) : Except PyStr PyStr × List Ev :=
  retryGo b content maxr services [] []

/-- Number of per-service calls in a trace. -/
def countAttempts (tr : List Ev) : Nat :=
  tr.countP (fun e => match e with | .att _ _ => true | _ => false)

/-! ## Claims C2, C6, C7: retry orchestration -/

/-- The behavior in which every call returns the empty string. -/
def constEmptyBehavior : Service → Nat → AttemptOutcome := fun _ _ => .result []

/-- The trace produced by one all-empty-result service pass. -/
def emptyPassTrace (svc : Service) : List Ev :=
  [Ev.att svc 0, Ev.sleep 1, Ev.att svc 1, Ev.sleep 1, Ev.att svc 2]

/-- The trace of a full all-empty run over a service list. -/
def allEmptyTrace : List Service → List Ev
  | [] => []
  | svc :: rest => emptyPassTrace svc ++ allEmptyTrace rest

theorem tryService_all_empty (b : Service → Nat → AttemptOutcome)
    (svc : Service) (content : PyStr) (errs : List PyStr)
    (hb : ∀ i, i < 3 → ∃ t, b svc i = .result t ∧ accepted t content = false) :
    tryService b svc content 3 3 0 errs = (none, errs, emptyPassTrace svc) := by
  obtain ⟨t0, hb0, ha0⟩ := hb 0 (by omega)
  obtain ⟨t1, hb1, ha1⟩ := hb 1 (by omega)
  obtain ⟨t2, hb2, ha2⟩ := hb 2 (by omega)
  simp [tryService, hb0, hb1, hb2, ha0, ha1, ha2, emptyPassTrace]

theorem retryGo_all_empty (b : Service → Nat → AttemptOutcome)
    (content : PyStr)
    (hb : ∀ svc i, i < 3 → ∃ t, b svc i = .result t ∧ accepted t content = false) :
    ∀ (services : List Service) (errs : List PyStr) (tr : List Ev),
      retryGo b content 3 services errs tr =
        (.error (S "Translation failed with all available services. Last errors: " ++
          joinSemicolon (lastN 3 errs)), tr ++ allEmptyTrace services) := by
  intro services
  induction services with
  | nil => intro errs tr; simp [retryGo, allEmptyTrace]
  | cons svc rest ih =>
    intro errs tr
    simp only [retryGo]
    rw [tryService_all_empty b svc content errs (hb svc)]
    show retryGo b content 3 rest errs (tr ++ emptyPassTrace svc) = _
    rw [ih errs (tr ++ emptyPassTrace svc)]
    simp [allEmptyTrace, List.append_assoc]

theorem countAttempts_append (a b : List Ev) :
    countAttempts (a ++ b) = countAttempts a + countAttempts b := by
  simp [countAttempts, List.countP_append]

theorem countAttempts_allEmptyTrace (services : List Service) :
    countAttempts (allEmptyTrace services) = 3 * services.length := by
  induction services with
  | nil => rfl
  | cons svc rest ih =>
    simp only [allEmptyTrace, countAttempts_append, ih, List.length_cons]
    have : countAttempts (emptyPassTrace svc) = 3 := by
      simp [emptyPassTrace, countAttempts, List.countP_cons, List.countP_nil]
    rw [this]
    ring

/-- C2 as amended: when every configured service returns an empty string on
every attempt, `translate_content_with_retry` raises after exactly
`services x 3` attempts, but its error message is the bare aggregation
prefix with an empty error list: empty results are only logged, never
recorded into `last_errors`, so the message references no service at all
(see `translate_retry_exhaustion_counterexample`). -/
theorem translate_retry_exhaustion_empty_results
    (b : Service → Nat → AttemptOutcome) (services : List Service)
    (content target source : PyStr)
    (hb : ∀ svc i, b svc i = .result []) :
    (translate_content_with_retry b services content target source 3).1 =
      .error (S "Translation failed with all available services. Last errors: ") ∧
    countAttempts (translate_content_with_retry b services content target source 3).2 =
      3 * services.length := by
  have hb2 : ∀ svc i, i < 3 → ∃ t, b svc i = .result t ∧
      accepted t content = false := by
    intro svc i _
    exact ⟨[], hb svc i, rfl⟩
  unfold translate_content_with_retry
  rw [retryGo_all_empty b content hb2 services [] []]
  constructor
  · simp [lastN, joinSemicolon]
  · simpa using countAttempts_allEmptyTrace services

/-- Witness for `translate_retry_exhaustion_empty_results` with both
services configured and the always-empty behavior. -/
theorem translate_retry_exhaustion_empty_results_witness :
    (translate_content_with_retry constEmptyBehavior
        [Service.gemini, Service.huggingface] (S "hello world") (S "spanish")
        (S "auto") 3).1 =
      .error (S "Translation failed with all available services. Last errors: ") ∧
    countAttempts (translate_content_with_retry constEmptyBehavior
        [Service.gemini, Service.huggingface] (S "hello world") (S "spanish")
        (S "auto") 3).2 =
      3 * ([Service.gemini, Service.huggingface] : List Service).length :=
  translate_retry_exhaustion_empty_results constEmptyBehavior
    [Service.gemini, Service.huggingface] (S "hello world") (S "spanish")
    (S "auto") (fun _ _ => rfl)

/-- C2, counterexample: with both services configured to always return
empty strings, the raised message is the bare prefix and contains no
reference to either configured service, contradicting the claim that it
references each configured service. -/
theorem translate_retry_exhaustion_counterexample :
    (translate_content_with_retry constEmptyBehavior
        [Service.gemini, Service.huggingface] (S "hello world") (S "spanish")
        (S "auto") 3).1 =
      .error (S "Translation failed with all available services. Last errors: ") ∧
    occursIn (S "gemini")
      (S "Translation failed with all available services. Last errors: ") = false ∧
    occursIn (S "huggingface")
      (S "Translation failed with all available services. Last errors: ") = false := by
  decide

theorem tryService_error_step (b : Service → Nat → AttemptOutcome)
    (svc : Service) (content : PyStr) (fuel i : Nat) (errs : List PyStr)
    (ho : isErrorOutcome (b svc i) = true) (hlt : i < 3 - 1) :
    tryService b svc content 3 (fuel + 1) i errs =
      ((tryService b svc content 3 fuel (i + 1)
          (errs ++ [attemptErrMsg svc (b svc i)])).1,
       (tryService b svc content 3 fuel (i + 1)
          (errs ++ [attemptErrMsg svc (b svc i)])).2.1,
       Ev.att svc i :: Ev.sleep ((i + 1) * 2) ::
         (tryService b svc content 3 fuel (i + 1)
           (errs ++ [attemptErrMsg svc (b svc i)])).2.2) := by
  cases hb : b svc i with
  | result t => rw [hb] at ho; simp [isErrorOutcome] at ho
  | timeout m => simp [tryService, hb, hlt]
  | connError m => simp [tryService, hb, hlt]
  | reqError m => simp [tryService, hb, hlt]
  | exn m => simp [tryService, hb, hlt]

theorem tryService_error_last (b : Service → Nat → AttemptOutcome)
    (svc : Service) (content : PyStr) (errs : List PyStr)
    (ho : isErrorOutcome (b svc 2) = true) :
    tryService b svc content 3 1 2 errs =
      (none, errs ++ [attemptErrMsg svc (b svc 2)], [Ev.att svc 2]) := by
  cases hb : b svc 2 with
  | result t => rw [hb] at ho; simp [isErrorOutcome] at ho
  | timeout m => simp [tryService, hb]
  | connError m => simp [tryService, hb]
  | reqError m => simp [tryService, hb]
  | exn m => simp [tryService, hb]

theorem tryService_rejected_step (b : Service → Nat → AttemptOutcome)
    (svc : Service) (content : PyStr) (fuel i : Nat) (errs : List PyStr)
    (t : PyStr) (hb : b svc i = .result t) (ha : accepted t content = false)
    (hlt : i < 3 - 1) :
    tryService b svc content 3 (fuel + 1) i errs =
      ((tryService b svc content 3 fuel (i + 1) errs).1,
       (tryService b svc content 3 fuel (i + 1) errs).2.1,
       Ev.att svc i :: Ev.sleep 1 ::
         (tryService b svc content 3 fuel (i + 1) errs).2.2) := by
  simp [tryService, hb, ha, hlt]

/-- C6 as amended: in `translate_content_with_retry`, the per-service
attempt loop behaves asymmetrically on attempt `i` (1-based) when attempts
remain: a caught exception is recorded into the aggregation list and is
followed by a sleep of exactly `i * 2` seconds (2s, 4s), while a
rejected/empty result is not recorded at all and is followed by a sleep of
exactly 1 second (the `continue` at line 1207 skips the backoff block).
Stated as the full trace of one service pass under each of the two
behaviors. -/
theorem translate_retry_backoff_and_recording
    (b : Service → Nat → AttemptOutcome) (svc : Service) (content : PyStr)
    (errs : List PyStr) :
    ((∀ i, i < 3 → isErrorOutcome (b svc i) = true) →
      tryService b svc content 3 3 0 errs =
        (none,
         errs ++ [attemptErrMsg svc (b svc 0), attemptErrMsg svc (b svc 1),
           attemptErrMsg svc (b svc 2)],
         [Ev.att svc 0, Ev.sleep 2, Ev.att svc 1, Ev.sleep 4,
          Ev.att svc 2])) ∧
    ((∀ i, i < 3 → ∃ t, b svc i = .result t ∧ accepted t content = false) →
      tryService b svc content 3 3 0 errs =
        (none, errs,
         [Ev.att svc 0, Ev.sleep 1, Ev.att svc 1, Ev.sleep 1,
          Ev.att svc 2])) := by
  constructor
  · intro hb
    rw [show (3 : Nat) = 2 + 1 from rfl,
      tryService_error_step b svc content 2 0 errs (hb 0 (by omega)) (by omega)]
    rw [show (2 : Nat) = 1 + 1 from rfl,
      tryService_error_step b svc content 1 1 _ (hb 1 (by omega)) (by omega)]
    rw [tryService_error_last b svc content _ (hb 2 (by omega))]
    simp
  · intro hb
    have h := tryService_all_empty b svc content errs hb
    rw [h]
    rfl

/-- Witness for `translate_retry_backoff_and_recording`: the all-timeout
behavior records three messages with 2s and 4s sleeps, and the all-empty
behavior records nothing with 1s sleeps. -/
theorem translate_retry_backoff_and_recording_witness :
    tryService (fun _ _ => .timeout (S "t")) Service.gemini (S "hi") 3 3 0 [] =
      (none,
       [attemptErrMsg Service.gemini (.timeout (S "t")),
        attemptErrMsg Service.gemini (.timeout (S "t")),
        attemptErrMsg Service.gemini (.timeout (S "t"))],
       [Ev.att Service.gemini 0, Ev.sleep 2, Ev.att Service.gemini 1,
        Ev.sleep 4, Ev.att Service.gemini 2]) ∧
    tryService constEmptyBehavior Service.gemini (S "hi") 3 3 0 [] =
      (none, [],
       [Ev.att Service.gemini 0, Ev.sleep 1, Ev.att Service.gemini 1,
        Ev.sleep 1, Ev.att Service.gemini 2]) :=
  ⟨by
    have h := (translate_retry_backoff_and_recording
      (fun _ _ => .timeout (S "t")) Service.gemini (S "hi") []).1
      (fun i _ => rfl)
    simpa using h,
   by
    have h := (translate_retry_backoff_and_recording
      constEmptyBehavior Service.gemini (S "hi") []).2
      (fun i _ => ⟨[], rfl, rfl⟩)
    simpa using h⟩

/-- C6, counterexample: with a single configured service whose every call
returns an empty string, the rejected first attempt is followed by a sleep
of 1 second, not 2, and nothing is recorded into the aggregation list (the
final message is the bare prefix), contradicting the claim for the
rejected/empty case. -/
theorem translate_retry_rejected_counterexample :
    (translate_content_with_retry constEmptyBehavior [Service.gemini]
        (S "hello") (S "spanish") (S "auto") 3).2 =
      [Ev.att Service.gemini 0, Ev.sleep 1, Ev.att Service.gemini 1,
       Ev.sleep 1, Ev.att Service.gemini 2] ∧
    (translate_content_with_retry constEmptyBehavior [Service.gemini]
        (S "hello") (S "spanish") (S "auto") 3).1 =
      .error (S "Translation failed with all available services. Last errors: ") := by
  decide

/-- C7: if the first configured service returns an accepted result on its
first attempt, `translate_content_with_retry` returns it immediately; the
trace is the single first-attempt call, so no later service and no further
attempt is ever invoked. -/
theorem translate_retry_short_circuit (b : Service → Nat → AttemptOutcome)
    (svc : Service) (rest : List Service) (content target source t : PyStr)
    (hb : b svc 0 = .result t) (hacc : accepted t content = true) :
    translate_content_with_retry b (svc :: rest) content target source 3 =
      (.ok t, [Ev.att svc 0]) := by
  unfold translate_content_with_retry retryGo
  rw [show (3 : Nat) = 2 + 1 from rfl]
  simp [tryService, hb, hacc]

/-- Witness for `translate_retry_short_circuit`: both services configured,
the first returning a valid translation immediately. -/
theorem translate_retry_short_circuit_witness :
    translate_content_with_retry (fun _ _ => .result (S "hola"))
        [Service.gemini, Service.huggingface] (S "hello") (S "spanish")
        (S "auto") 3 =
      (.ok (S "hola"), [Ev.att Service.gemini 0]) :=
  translate_retry_short_circuit (fun _ _ => .result (S "hola"))
    Service.gemini [Service.huggingface] (S "hello") (S "spanish") (S "auto")
    (S "hola") rfl (by decide)

/-! ## Per-service translation (backend/app.py lines 937-1176)

HTTP responses are modeled as already-parsed JSON shapes; the per-call
oracles return, for each request, which shape (or which raised exception)
the source would observe. -/

/-- Parsed response of the general generation endpoint used by
`translate_with_general_model`: a JSON list whose first element carries an
optional `generated_text` field, any other shape (non-list or empty list),
or a raised exception. -/
inductive GenApiResult
  | listFirst (gen : Option PyStr)
  | otherShape
  | exn (m : PyStr)
deriving DecidableEq

/-- Parsed response of one specialized translation-model request in
`translate_chunk`: `[{'translation_text': t}]`, `[{'generated_text': t}]`,
`{'error': e}`, some other 2xx JSON shape, a 503 (model loading), another
non-2xx status, or a raised request exception. -/
inductive HFApiResult
  | transList (t : PyStr)
  | genList (t : PyStr)
  | errObj (e : PyStr)
  | otherShape
  | status503
  | httpError
  | netError (m : PyStr)
deriving DecidableEq

/-- The external dependencies of the Hugging Face translation path:
`hfApi model text call` is the response of the POST to the given
specialized model (`call` is 0, or 1 for the single retry after a 503);
`genApi prompt` is the response of the general model endpoint; `sentTok`
is the sentence tokenizer used by `chunk_text_for_translation`. -/
structure HFOracles where
  sentTok : PyStr → Except Unit (List PyStr)
  hfApi : PyStr → PyStr → Nat → HFApiResult
  genApi : PyStr → GenApiResult

/-- The `language_models` map of `translate_chunk` (lines 997-1010). -/
def language_models : List (PyStr × PyStr) :=
  [(S "spanish", S "Helsinki-NLP/opus-mt-en-es"),
   (S "french", S "Helsinki-NLP/opus-mt-en-fr"),
   (S "german", S "Helsinki-NLP/opus-mt-en-de"),
   (S "italian", S "Helsinki-NLP/opus-mt-en-it"),
   (S "portuguese", S "Helsinki-NLP/opus-mt-en-pt"),
   (S "dutch", S "Helsinki-NLP/opus-mt-en-nl"),
   (S "chinese", S "Helsinki-NLP/opus-mt-en-zh"),
   (S "japanese", S "Helsinki-NLP/opus-mt-en-jap"),
   (S "korean", S "Helsinki-NLP/opus-mt-en-ko"),
   (S "arabic", S "Helsinki-NLP/opus-mt-en-ar"),
   (S "russian", S "Helsinki-NLP/opus-mt-en-ru"),
   (S "hindi", S "Helsinki-NLP/opus-mt-en-hi")]

/-- Association lookup, modeling Python `dict` lookup on a literal table
with distinct keys. -/
def lookupModel : List (PyStr × PyStr) → PyStr → Option PyStr
  | [], _ => none
  | (k, v) :: rest, key => if key = k then some v else lookupModel rest key

/-- `language_models.get(target_language.lower(),
'Helsinki-NLP/opus-mt-en-es')` (line 1012). -/
def modelForLanguage (target : PyStr) : PyStr :=
  (lookupModel language_models (pyLower target)).getD
    (S "Helsinki-NLP/opus-mt-en-es")

/-- The prompt built by `translate_with_general_model` (line 1056). -/
def general_model_prompt (text target : PyStr) : PyStr :=
  S "Translate the following text to " ++ target ++ S ":\n\n" ++ text ++
    S "\n\nTranslation:"

/-- `translated.split('Translation:')[-1]`. -/
def lastSplitPiece (sep s : PyStr) : PyStr := (splitSub sep s).getLastD []

/-- `translate_with_general_model` (lines 1054-1086): on a list-shaped
response take the stripped `generated_text` (defaulting to the empty
string) and keep only the part after the last `Translation:` marker; on a
non-list or empty-list response, or on any raised exception (the bare
`except Exception` at line 1084), return the original text. -/
def translate_with_general_model (o : HFOracles) (text target : PyStr) :
    PyStr :=
  match o.genApi (general_model_prompt text target) with
  | .exn _ => text
  | .otherShape => text
  | .listFirst g =>
    let translated := pystrip (g.getD [])
    if occursIn (S "Translation:") translated then
      pystrip (lastSplitPiece (S "Translation:") translated)
    else translated

/-- The general model endpoint name (`self.HF_API_URL` targets
`google/flan-t5-small`), recorded in call traces. -/
def hf_general_model : PyStr := S "google/flan-t5-small"

/-- Shared tail of `translate_chunk` after `raise_for_status` did not
raise on the (possibly retried) response: extract `translation_text` or
`generated_text`, and on an error object or any other shape fall back to
the general model.  A 503 or other non-2xx here makes `raise_for_status`
raise a `RequestException`, also falling back. -/
def processHFResponse (o : HFOracles) (text target : PyStr)
    (r : HFApiResult) (calls : List PyStr) : PyStr × List PyStr :=
  match r with
  | .transList t => (t, calls)
  | .genList t => (t, calls)
  | _ => (translate_with_general_model o text target,
      calls ++ [hf_general_model])

/-- `translate_chunk` (lines 993-1052): select the specialized model (with
the English-to-Spanish model as silent default), POST once, retry once
after a 503, and on any failure path fall back to the general model.  The
second component lists the models requested, in order. -/
def translate_chunk (o : HFOracles) (text target _source : PyStr) :
    PyStr × List PyStr :=
  let model := modelForLanguage target
  match o.hfApi model text 0 with
  | .netError _ =>
    (translate_with_general_model o text target, [model, hf_general_model])
  | .status503 =>
    match o.hfApi model text 1 with
    | .netError _ =>
      (translate_with_general_model o text target,
       [model, model, hf_general_model])
    | r1 => processHFResponse o text target r1 [model, model]
  | r0 => processHFResponse o text target r0 [model]

/-- The accumulation loop of `chunk_text_for_translation` (lines 976-991):
greedily extend the current chunk while the character count of
`current_chunk + sentence` stays within the budget. -/
def chunkCharsLoop (maxChars : Nat) : List PyStr → PyStr → List PyStr
  | [], cur => if pystrip cur = [] then [] else [pystrip cur]
  | s :: rest, cur =>
    if (cur ++ s).length ≤ maxChars then
      chunkCharsLoop maxChars rest (cur ++ s ++ S " ")
    else if pystrip cur = [] then
      chunkCharsLoop maxChars rest (s ++ S " ")
    else
      pystrip cur :: chunkCharsLoop maxChars rest (s ++ S " ")

/-- `chunk_text_for_translation(text, max_chars=1000)` (lines 971-991): a
text within the budget is returned whole without tokenization; otherwise
the sentence tokenizer runs outside any `try`, so its failure propagates. -/
def chunk_text_for_translation (o : HFOracles) (text : PyStr)
    (maxChars : Nat) : Except Unit (List PyStr) :=
  if text.length ≤ maxChars then .ok [text]
  else (o.sentTok text).map (fun sentences => chunkCharsLoop maxChars sentences [])

/-- The `for chunk in chunks` loop of `translate_content` (lines 961-963),
appending each translated chunk. -/
def translateChunksLoop (o : HFOracles) (target source : PyStr) :
    List PyStr → List PyStr → List PyStr
  | [], acc => acc
  | c :: cs, acc =>
    translateChunksLoop o target source cs
      (acc ++ [(translate_chunk o c target source).1])

/-- `translate_content` (lines 951-969): chunk into at most 1000-character
pieces, translate each chunk independently, and join with single spaces;
an exception inside (only the sentence tokenizer here) is re-raised as
`ValueError('Translation failed: ...')`. -/
def translate_content (o : HFOracles) (content target source : PyStr) :
    Except PyStr PyStr :=
  match chunk_text_for_translation o content 1000 with
  | .error _ => .error (S "Translation failed: ")
  | .ok chunks =>
    .ok (joinSp (translateChunksLoop o target source chunks []))

/-- The `language_names` map of `translate_with_gemini` (lines 1094-1107). -/
def language_names : List (PyStr × PyStr) :=
  [(S "spanish", S "Spanish"), (S "french", S "French"),
   (S "german", S "German"), (S "italian", S "Italian"),
   (S "portuguese", S "Portuguese"), (S "dutch", S "Dutch"),
   (S "chinese", S "Chinese (Simplified)"), (S "japanese", S "Japanese"),
   (S "korean", S "Korean"), (S "arabic", S "Arabic"),
   (S "russian", S "Russian"), (S "hindi", S "Hindi")]

/-- The Gemini translation prompt (lines 1112-1118), containing the entire
content of the request. -/
def gemini_prompt (content name : PyStr) : PyStr :=
  S "Translate the following text to " ++ name ++
    S ". \nProvide only the translation without any additional text or explanations.\n\nText to translate:\n" ++
    content ++ S "\n\nTranslation:"

/-- Parsed outcome of the single Gemini API request: a 200 response with
candidates (carrying `candidates[0].content.parts[0].text`), a 200 without
candidates, a non-200 status with its body, or a raised request
exception. -/
inductive GeminiResult
  | ok (text : PyStr)
  | emptyCandidates
  | httpError (code : Nat) (body : PyStr)
  | netError (m : PyStr)
deriving DecidableEq

/-- `translate_with_gemini` (lines 1088-1176): build one prompt holding the
whole content and send it in a single request (no chunking); post-process
the reply by stripping, removing a leading `translation:` and taking the
last line.  Error paths raise `ValueError` with the source messages.  The
second component lists the prompts sent. -/
def translate_with_gemini (api : PyStr → GeminiResult)
    (content target _source : PyStr) : Except PyStr PyStr × List PyStr :=
  let name := (lookupModel language_names (pyLower target)).getD target
  let prompt := gemini_prompt content name
  match api prompt with
  | .ok text =>
    let t1 := pystrip text
    let t2 := if ciIsPrefixOf (S "translation:") t1 then pystrip (t1.drop 12)
      else t1
    let t3 := match splitNL t2 with
      | [] => t2
      | [x] => pystrip x
      | xs => pystrip (xs.getLastD [])
    (.ok t3, [prompt])
  | .emptyCandidates =>
    (.error (S "Gemini translation failed: Gemini returned unexpected response format"),
     [prompt])
  | .httpError code body =>
    (.error (S "Gemini translation failed: Gemini API request failed: " ++
      natToStr code ++ S " - " ++ body), [prompt])
  | .netError m =>
    (.error (S "Gemini API network error: " ++ m), [prompt])

/-! ## Claims C8, C9, C10: per-service translation -/

theorem translateChunksLoop_eq_map (o : HFOracles) (target source : PyStr) :
    ∀ (chunks acc : List PyStr),
      translateChunksLoop o target source chunks acc =
        acc ++ chunks.map (fun c => (translate_chunk o c target source).1) := by
  intro chunks
  induction chunks with
  | nil => intro acc; simp [translateChunksLoop]
  | cons c cs ih =>
    intro acc
    rw [show translateChunksLoop o target source (c :: cs) acc =
      translateChunksLoop o target source cs
        (acc ++ [(translate_chunk o c target source).1]) from rfl]
    rw [ih]
    simp

/-- C8 as amended, HuggingFace half: `translate_content` splits the input
into the sentence-respecting chunks of `chunk_text_for_translation` with a
1000-character budget, translates each chunk independently through
`translate_chunk`, and joins the results with single spaces.  The Gemini
service does no such chunking (see
`translate_with_gemini_no_chunking_counterexample`). -/
theorem translate_content_chunks_and_joins (o : HFOracles)
    (content target source : PyStr) (chunks : List PyStr)
    (h : chunk_text_for_translation o content 1000 = .ok chunks) :
    translate_content o content target source =
      .ok (joinSp (chunks.map (fun c => (translate_chunk o c target source).1))) := by
  unfold translate_content
  rw [h]
  show Except.ok (joinSp (translateChunksLoop o target source chunks [])) = _
  rw [translateChunksLoop_eq_map o target source chunks []]
  rfl

/-- A concrete always-succeeding oracle for witnesses. -/
def hfOraclesConst : HFOracles :=
  { sentTok := fun _ => .ok []
    hfApi := fun _ _ _ => .transList (S "hola")
    genApi := fun _ => .listFirst none }

/-- Witness for `translate_content_chunks_and_joins` at a short concrete
content, which forms a single chunk. -/
theorem translate_content_chunks_and_joins_witness :
    translate_content hfOraclesConst (S "Hello there.") (S "spanish")
        (S "auto") =
      .ok (joinSp (([S "Hello there."]).map (fun c =>
        (translate_chunk hfOraclesConst c (S "spanish") (S "auto")).1))) :=
  translate_content_chunks_and_joins hfOraclesConst (S "Hello there.")
    (S "spanish") (S "auto") [S "Hello there."] rfl

/-- A 1001-character content, exceeding the 1000-character chunk budget. -/
def longContent : PyStr := List.replicate 1001 'a'

/-- C8, counterexample: the Gemini per-service translation does not chunk.
For a 1001-character content it sends exactly one request whose prompt
embeds the entire content, instead of splitting it into pieces of at most
1000 characters. -/
theorem translate_with_gemini_no_chunking_counterexample :
    1000 < longContent.length ∧
    (translate_with_gemini (fun _ => .ok (S "hola")) longContent
        (S "spanish") (S "auto")).2 =
      [gemini_prompt longContent (S "Spanish")] ∧
    (∃ pre post, gemini_prompt longContent (S "Spanish") =
      pre ++ longContent ++ post) := by
  refine ⟨by unfold longContent; rw [List.length_replicate]; omega, rfl, ?_⟩
  exact ⟨S "Translate the following text to " ++ S "Spanish" ++
    S ". \nProvide only the translation without any additional text or explanations.\n\nText to translate:\n",
    S "\n\nTranslation:", by simp [gemini_prompt, List.append_assoc]⟩

/-- C9: for every target language whose lower-cased form is not one of the
12 keys of `language_models`, `translate_chunk` silently selects the
English-to-Spanish model `Helsinki-NLP/opus-mt-en-es` as the first (and
only specialized) model requested; no unsupported-language error exists in
this code path (the function is total). -/
theorem translate_chunk_default_model (o : HFOracles)
    (text target source : PyStr)
    (h : lookupModel language_models (pyLower target) = none) :
    modelForLanguage target = S "Helsinki-NLP/opus-mt-en-es" ∧
    (translate_chunk o text target source).2.head? =
      some (S "Helsinki-NLP/opus-mt-en-es") := by
  have hm : modelForLanguage target = S "Helsinki-NLP/opus-mt-en-es" := by
    simp [modelForLanguage, h]
  refine ⟨hm, ?_⟩
  simp only [translate_chunk, hm]
  cases o.hfApi (S "Helsinki-NLP/opus-mt-en-es") text 0 with
  | transList t => rfl
  | genList t => rfl
  | errObj e => rfl
  | otherShape => rfl
  | status503 =>
    cases o.hfApi (S "Helsinki-NLP/opus-mt-en-es") text 1 with
    | transList t => rfl
    | genList t => rfl
    | errObj e => rfl
    | otherShape => rfl
    | status503 => rfl
    | httpError => rfl
    | netError m => rfl
  | httpError => rfl
  | netError m => rfl

/-- Witness for `translate_chunk_default_model` at the unsupported target
language `"klingon"`. -/
theorem translate_chunk_default_model_witness :
    modelForLanguage (S "klingon") = S "Helsinki-NLP/opus-mt-en-es" ∧
    (translate_chunk hfOraclesConst (S "hi") (S "klingon") (S "auto")).2.head? =
      some (S "Helsinki-NLP/opus-mt-en-es") :=
  translate_chunk_default_model hfOraclesConst (S "hi") (S "klingon")
    (S "auto") (by decide)

/-- An oracle whose general-model response is a list whose first element
has no `generated_text` field. -/
def hfOraclesMissingGen : HFOracles :=
  { sentTok := fun _ => .ok []
    hfApi := fun _ _ _ => .otherShape
    genApi := fun _ => .listFirst none }

/-- C10, counterexample: on a list response whose first element yields no
generated text, `translate_with_general_model` returns the empty string,
not the original input text. -/
theorem translate_with_general_model_counterexample :
    translate_with_general_model hfOraclesMissingGen (S "bonjour")
        (S "spanish") = [] ∧
    ¬ (S "bonjour" : PyStr) = [] := by decide

/-- C10 as amended: `translate_with_general_model` never raises (it is
total); on a raised request exception or a non-list/empty-list response it
returns the original input text unchanged; on a list response whose first
element carries no generated text it returns the empty string, a value the
orchestrator acceptance check also rejects. -/
theorem translate_with_general_model_failures (o : HFOracles)
    (text target : PyStr) :
    ((∃ m, o.genApi (general_model_prompt text target) = .exn m) →
      translate_with_general_model o text target = text) ∧
    (o.genApi (general_model_prompt text target) = .otherShape →
      translate_with_general_model o text target = text) ∧
    (o.genApi (general_model_prompt text target) = .listFirst none →
      translate_with_general_model o text target = []) ∧
    (∀ content : PyStr, accepted [] content = false) := by
  refine ⟨?_, ?_, ?_, fun content => rfl⟩
  · rintro ⟨m, hm⟩
    simp [translate_with_general_model, hm]
  · intro hm
    simp [translate_with_general_model, hm]
  · intro hm
    simp [translate_with_general_model, hm, lastSplitPiece, pystrip,
      trimLeft, trimRight, occursIn]

/-- Witness for `translate_with_general_model_failures`, discharging each
failure hypothesis with a concrete oracle. -/
theorem translate_with_general_model_failures_witness :
    translate_with_general_model
        { sentTok := fun _ => Except.ok []
          hfApi := fun _ _ _ => HFApiResult.otherShape
          genApi := fun _ => GenApiResult.exn (S "boom") }
        (S "abc") (S "spanish") = S "abc" ∧
    translate_with_general_model hfOraclesMissingGen (S "abc")
        (S "spanish") = [] :=
  ⟨(translate_with_general_model_failures _ (S "abc") (S "spanish")).1
      ⟨S "boom", rfl⟩,
   (translate_with_general_model_failures hfOraclesMissingGen (S "abc")
      (S "spanish")).2.2.1 rfl⟩
